import Mathlib

/-!
Shallow embedding of the MyLang interpreter (`src/mylang_interpreter.py`):
runtime values, the lexer, the recursive-descent parser, and the
tree-walking evaluator, together with theorems settling the claims
C1–C10 about the implementation.

Modelling conventions:
* Python `int` is modelled as `Int`, Python `float` as `ℚ` (the exact
  value written in the source text or produced by exact division;
  IEEE-754 binary64 rounding is not modelled).
* Python dicts keyed by strings are modelled as ordered association
  lists (`dictGet` / `dictSet` mirror `d[k]` read and write semantics,
  including insertion order of keys).
* The filesystem consulted by `visit_Import` / `find_module` is
  abstracted as a function `String → Option String` from a module name
  to the text of its `.mylang` file (`none` = resolution failure).
* Nonterminating recursion (imports re-entering the evaluator) is fuel
  limited; a distinguished out-of-fuel result `Res.oom` propagates and
  stands for "the model ran out of gas", never for a program outcome.
-/

set_option maxHeartbeats 1000000
set_option linter.unnecessarySeqFocus false

namespace MyLang

/-- Python numeric values: `int` vs `float` (float idealised as `ℚ`). -/
inductive PyNum
  | int (n : Int)
  | float (q : ℚ)
deriving DecidableEq

/-- Runtime values of the language: Python `int`, `float`, `str`, `bool`.
Mirrors the set of values the interpreter can produce
(`visit_Number`, `visit_String`, `visit_Comparison`). -/
inductive Value
  | int (n : Int)
  | float (q : ℚ)
  | str (s : String)
  | bool (b : Bool)
deriving DecidableEq

namespace Value

/-- Python `type(v).__name__` for the four value kinds. -/
def typeName : Value → String
  | .int _ => "int"
  | .float _ => "float"
  | .str _ => "str"
  | .bool _ => "bool"

/-- Python truthiness (`bool(v)`), as used by `while self.visit(...):`. -/
def truthy : Value → Bool
  | .int n => decide (n ≠ 0)
  | .float q => decide (q ≠ 0)
  | .str s => decide (s ≠ "")
  | .bool b => b

/-- Python `isinstance(v, (int, float))`; note Python `bool` is a
subclass of `int`, so booleans count as numeric. -/
def isNumeric : Value → Bool
  | .int _ => true
  | .float _ => true
  | .bool _ => true
  | .str _ => false

/-- Python `isinstance(v, int)` (booleans included). -/
def isIntLike : Value → Bool
  | .int _ => true
  | .bool _ => true
  | _ => false

/-- Python `isinstance(v, str)`. -/
def isStr : Value → Bool
  | .str _ => true
  | _ => false

def isBool : Value → Bool
  | .bool _ => true
  | _ => false

/-- Numeric content of a numeric-like value (bool coerces to 0/1 as in
Python); the `str` branch is unreachable under `isNumeric` guards. -/
def toNum : Value → PyNum
  | .int n => .int n
  | .float q => .float q
  | .bool b => .int (if b then 1 else 0)
  | .str _ => .int 0

/-- The rational content of a numeric-like value. -/
def toQ : Value → ℚ
  | .int n => (n : ℚ)
  | .float q => q
  | .bool b => if b then 1 else 0
  | .str _ => 0

/-- Integer content of an int-like value (for string replication). -/
def toIntLike : Value → Int
  | .int n => n
  | .bool b => if b then 1 else 0
  | _ => 0

end Value

/-- Lift a Python number back into a runtime value. -/
def numValue : PyNum → Value
  | .int n => .int n
  | .float q => .float q

/-- Python `a + b` on numbers: `int + int` is `int`, any `float`
operand gives `float`. -/
def pyAdd : PyNum → PyNum → PyNum
  | .int a, .int b => .int (a + b)
  | .int a, .float q => .float ((a : ℚ) + q)
  | .float q, .int b => .float (q + (b : ℚ))
  | .float a, .float b => .float (a + b)

/-- Python `a - b` on numbers. -/
def pySub : PyNum → PyNum → PyNum
  | .int a, .int b => .int (a - b)
  | .int a, .float q => .float ((a : ℚ) - q)
  | .float q, .int b => .float (q - (b : ℚ))
  | .float a, .float b => .float (a - b)

/-- Python `a * b` on numbers. -/
def pyMul : PyNum → PyNum → PyNum
  | .int a, .int b => .int (a * b)
  | .int a, .float q => .float ((a : ℚ) * q)
  | .float q, .int b => .float (q * (b : ℚ))
  | .float a, .float b => .float (a * b)

/-- Decimal rendering of a float for string coercion.  Python renders
the shortest round-tripping decimal of the binary64 value; that
formatting is not modelled exactly (no claim depends on it). -/
def floatStr (q : ℚ) : String :=
  toString q.num ++ "/" ++ toString q.den

/-- Python `str(v)`, as used by the `+` string-coercion branch of
`visit_BinOp`. -/
def pyStr : Value → String
  | .str s => s
  | .int n => toString n
  | .float q => floatStr q
  | .bool b => if b then "True" else "False"

/-- Python `s * n` string replication (non-positive `n` yields `""`). -/
def strRepeat (s : String) (n : Int) : String :=
  String.join (List.replicate n.toNat s)

/-- The arithmetic dispatch of `visit_BinOp` (source lines 557-591),
applied to the two already-evaluated operands. -/
def applyBinOp (op : String) (left right : Value) : Except String Value :=
  if op = "+" then
    if left.isStr || right.isStr then
      .ok (.str (pyStr left ++ pyStr right))
    else if left.isNumeric && right.isNumeric then
      .ok (numValue (pyAdd left.toNum right.toNum))
    else
      .error ("不支持的类型相加: " ++ left.typeName ++ " + " ++ right.typeName)
  else if op = "-" then
    if left.isNumeric && right.isNumeric then
      .ok (numValue (pySub left.toNum right.toNum))
    else
      .error ("不支持的类型相减: " ++ left.typeName ++ " - " ++ right.typeName)
  else if op = "*" then
    if left.isStr && right.isIntLike then
      .ok (.str (strRepeat (pyStr left) right.toIntLike))
    else if left.isIntLike && right.isStr then
      .ok (.str (strRepeat (pyStr right) left.toIntLike))
    else if left.isNumeric && right.isNumeric then
      .ok (numValue (pyMul left.toNum right.toNum))
    else
      .error ("不支持的类型相乘: " ++ left.typeName ++ " * " ++ right.typeName)
  else if op = "/" then
    if left.isNumeric && right.isNumeric then
      if right.toQ = 0 then .error "除以零错误"
      else .ok (.float (left.toQ / right.toQ))
    else
      .error ("不支持的类型相除: " ++ left.typeName ++ " / " ++ right.typeName)
  else
    .error ("未知的运算符: " ++ op)

/-- Numeric order test used by the `<`, `<=`, `>`, `>=` branches of
`visit_Comparison`; only reached when both operands have the same
Python type and that type is numeric-like, where Python's comparison
coincides with the rational order (booleans compare as 0/1). -/
def ordTest (op : String) (left right : Value) : Bool :=
  if op = "<" then decide (left.toQ < right.toQ)
  else if op = "<=" then decide (left.toQ ≤ right.toQ)
  else if op = ">" then decide (right.toQ < left.toQ)
  else decide (right.toQ ≤ left.toQ)

/-- The comparison dispatch of `visit_Comparison` (source lines
522-555): a `type(left) != type(right)` check first, then the
operator branches, with `<`/`<=`/`>`/`>=` requiring
`isinstance(·, (int, float))` operands. -/
def applyComparison (op : String) (left right : Value) : Except String Value :=
  if left.typeName ≠ right.typeName then
    .error ("比较运算类型不匹配: " ++ left.typeName ++ " 和 " ++ right.typeName)
  else if op = "==" then .ok (.bool (decide (left = right)))
  else if op = "!=" then .ok (.bool (decide (left ≠ right)))
  else if op = "<" ∨ op = "<=" ∨ op = ">" ∨ op = ">=" then
    if left.isNumeric && right.isNumeric then
      .ok (.bool (ordTest op left right))
    else
      .error ("不支持的类型比较: " ++ left.typeName ++ " " ++ op ++ " " ++ right.typeName)
  else
    .error ("未知的比较运算符: " ++ op)

/-- Read access `d[k]` on a Python dict modelled as an ordered
association list (first binding of the key wins; keys are unique by
construction of `dictSet`). -/
def dictGet (k : String) : List (String × Value) → Option Value
  | [] => none
  | (k', v) :: rest => if k' = k then some v else dictGet k rest

/-- Write access `d[k] = v` on a Python dict: replace in place when the
key exists (keeping its position), append otherwise. -/
def dictSet (k : String) (v : Value) : List (String × Value) → List (String × Value)
  | [] => [(k, v)]
  | (k', w) :: rest => if k' = k then (k', v) :: rest else (k', w) :: dictSet k v rest

theorem dictGet_mem {k : String} {v : Value} :
    ∀ {l : List (String × Value)}, dictGet k l = some v → (k, v) ∈ l := by
  intro l
  induction l with
  | nil => intro h; simp [dictGet] at h
  | cons p rest ih =>
    rcases p with ⟨k', w⟩
    intro h
    by_cases hk : k' = k
    · simp [dictGet, hk] at h
      simp [hk, h]
    · simp [dictGet, hk] at h
      exact List.mem_cons_of_mem _ (ih h)

theorem dictSet_mem {k : String} {v : Value} {n : String} {w : Value} :
    ∀ {l : List (String × Value)}, (n, w) ∈ dictSet k v l → (n = k ∧ w = v) ∨ (n, w) ∈ l := by
  intro l
  induction l with
  | nil => intro h; simp [dictSet] at h; exact Or.inl h
  | cons p rest ih =>
    rcases p with ⟨k', u⟩
    intro h
    by_cases hk : k' = k
    · rw [dictSet, if_pos hk] at h
      simp only [List.mem_cons, Prod.mk.injEq] at h
      rcases h with ⟨e1, e2⟩ | h1
      · exact Or.inl ⟨hk ▸ e1, e2⟩
      · exact Or.inr (List.mem_cons_of_mem _ h1)
    · rw [dictSet, if_neg hk] at h
      simp only [List.mem_cons] at h
      rcases h with h1 | h1
      · exact Or.inr (List.mem_cons.mpr (Or.inl h1))
      · rcases ih h1 with h' | h'
        · exact Or.inl h'
        · exact Or.inr (List.mem_cons_of_mem _ h')

theorem dictGet_dictSet_ne {x k : String} (hne : x ≠ k) (v : Value) :
    ∀ (l : List (String × Value)), dictGet x (dictSet k v l) = dictGet x l := by
  intro l
  induction l with
  | nil =>
    simp only [dictSet, dictGet]
    rw [if_neg (fun h => hne h.symm)]
  | cons p rest ih =>
    rcases p with ⟨k', u⟩
    by_cases hk : k' = k
    · rw [dictSet, if_pos hk]
      have hknx : ¬ (k' = x) := fun h => hne (by rw [← h]; exact hk)
      rw [dictGet, dictGet, if_neg hknx, if_neg hknx]
    · rw [dictSet, if_neg hk]
      by_cases hx : k' = x
      · rw [dictGet, dictGet, if_pos hx, if_pos hx]
      · rw [dictGet, dictGet, if_neg hx, if_neg hx]
        exact ih

/-! ## Lexer (`class Lexer`, source lines 57-250) -/

/-- The token kinds of `class TokenType` (source lines 23-45); the
source spells them as Chinese display strings, rendered by `ttName`. -/
inductive TokenType
  | PRINT | STRING | NUMBER | IDENTIFIER | SEMICOLON
  | LPAREN | RPAREN | LBRACE | RBRACE | EOF
  | ASSIGN | IF | ELSE | WHILE | COMPARISON
  | PLUS | MINUS | MULTIPLY | DIVIDE | IMPORT | TRY | CATCH
deriving DecidableEq

/-- Display names of the token kinds (the string constants of
`class TokenType`), used in parser error messages. -/
def ttName : TokenType → String
  | .PRINT => "打印"
  | .STRING => "字符串"
  | .NUMBER => "数字"
  | .IDENTIFIER => "标识符"
  | .SEMICOLON => "分号"
  | .LPAREN => "左括号"
  | .RPAREN => "右括号"
  | .LBRACE => "左大括号"
  | .RBRACE => "右大括号"
  | .EOF => "文件结束"
  | .ASSIGN => "赋值"
  | .IF => "如果"
  | .ELSE => "否则"
  | .WHILE => "循环"
  | .COMPARISON => "比较"
  | .PLUS => "加号"
  | .MINUS => "减号"
  | .MULTIPLY => "乘号"
  | .DIVIDE => "除号"
  | .IMPORT => "导入"
  | .TRY => "尝试"
  | .CATCH => "捕获"

/-- The heterogeneous `Token.value` field: a string lexeme, a parsed
number, or Python `None` (for EOF). -/
inductive TokVal
  | s (s : String)
  | n (n : PyNum)
  | null
deriving DecidableEq

/-- `class Token`: kind, value, and recorded source position. -/
structure Token where
  type : TokenType
  value : TokVal
  line : Nat
  column : Nat
deriving DecidableEq

/-- Lexer cursor state: the not-yet-consumed characters (so
`current_char` is the head, `None` when empty), the display filename,
and the 1-based `line`/`column` counters. -/
structure LexSt where
  chars : List Char
  filename : String
  line : Nat
  column : Nat
deriving DecidableEq

/-- Python `str.isspace` restricted to the ASCII whitespace characters
(the Unicode-only space characters are not modelled). -/
def pyIsSpace (c : Char) : Bool :=
  c = ' ' || c = '\t' || c = '\n' || c = '\r' || c = '\x0b' || c = '\x0c'

/-- Python `str.isdigit` restricted to ASCII digits. -/
def pyIsDigit (c : Char) : Bool :=
  c.isDigit

/-- Python `str.isalpha`: modelled as ASCII letters plus every
non-ASCII codepoint.  This coincides with Python on this repository's
alphabet (ASCII identifiers and the CJK keyword characters); it
over-approximates only on non-ASCII punctuation, which no keyword,
test input, or claim uses. -/
def pyIsAlpha (c : Char) : Bool :=
  c.isAlpha || 127 < c.toNat

/-- `Lexer.advance` (source lines 70-81): consume the current
character, updating the line/column counters. -/
def advance (st : LexSt) : LexSt :=
  match st.chars with
  | [] => st
  | c :: rest =>
    if c = '\n' then ⟨rest, st.filename, st.line + 1, 1⟩
    else ⟨rest, st.filename, st.line, st.column + 1⟩

/-- `Lexer.skip_whitespace` (source lines 83-85), on the raw cursor
data (characters, line, column). -/
def skip_whitespace : List Char → Nat → Nat → List Char × Nat × Nat
  | c :: rest, line, col =>
    if pyIsSpace c then
      if c = '\n' then skip_whitespace rest (line + 1) 1
      else skip_whitespace rest line (col + 1)
    else (c :: rest, line, col)
  | [], line, col => ([], line, col)

/-- `Lexer.skip_comment` (source lines 87-92): consume up to and
including the next newline. -/
def skip_comment : List Char → Nat → Nat → List Char × Nat × Nat
  | c :: rest, line, col =>
    if c = '\n' then (rest, line + 1, 1)
    else skip_comment rest line (col + 1)
  | [], line, col => ([], line, col)

/-- `Lexer.string` (source lines 94-123) after the opening quote has
been consumed: scan the body, decoding the four escapes, until the
closing quote.  Errors carry the position and message of the
`LexerError` the source raises. -/
def string_scan : List Char → Nat → Nat → String → Except (Nat × Nat × String) (String × List Char × Nat × Nat)
  | c :: rest, line, col, acc =>
    if c = '"' then .ok (acc, rest, line, col + 1)
    else if c = '\\' then
      match rest with
      | d :: rest2 =>
        if d = 'n' then string_scan rest2 line (col + 2) (acc.push '\n')
        else if d = 't' then string_scan rest2 line (col + 2) (acc.push '\t')
        else if d = '"' then string_scan rest2 line (col + 2) (acc.push '"')
        else if d = '\\' then string_scan rest2 line (col + 2) (acc.push '\\')
        else .error (line, col + 1, "未知的转义序列: \\" ++ String.singleton d)
      | [] => .error (line, col + 1, "未知的转义序列: \\None")
    else if c = '\n' then string_scan rest (line + 1) 1 (acc.push c)
    else string_scan rest line (col + 1) (acc.push c)
  | [], line, col, _ => .error (line, col, "未结束的字符串")

/-- The digit-consuming loops of `Lexer.number` (source lines 125-137). -/
def digits_scan : List Char → Nat → String → String × List Char × Nat
  | c :: rest, col, acc =>
    if pyIsDigit c then digits_scan rest (col + 1) (acc.push c)
    else (acc, c :: rest, col)
  | [], col, acc => (acc, [], col)

/-- Decimal value of a digit string (`int(result)` in the source). -/
def digitsToNatAux : List Char → Nat → Nat
  | [], acc => acc
  | c :: rest, acc => digitsToNatAux rest (acc * 10 + (c.toNat - 48))

def digitsToNat (s : String) : Nat :=
  digitsToNatAux s.toList 0

/-- `Lexer.number`: contiguous digits, optionally followed by `.` and
more digits; a dot yields a float (`float(result)`, idealised as the
exact decimal value), otherwise an int. -/
def number_scan (chars : List Char) (col : Nat) : PyNum × List Char × Nat :=
  match digits_scan chars col "" with
  | (ds, rest, col') =>
    match rest with
    | '.' :: rest2 =>
      match digits_scan rest2 (col' + 1) "" with
      | (fs, rest3, col'') =>
        (.float ((digitsToNat ds : ℚ) + (digitsToNat fs : ℚ) / ((10 : ℚ) ^ fs.length)), rest3, col'')
    | _ => (.int (digitsToNat ds), rest, col')

/-- `Lexer.identifier` (source lines 139-143): consume alphanumerics
and underscores. -/
def identifier_scan : List Char → Nat → String → String × List Char × Nat
  | c :: rest, col, acc =>
    if pyIsAlpha c || pyIsDigit c || c = '_' then identifier_scan rest (col + 1) (acc.push c)
    else (acc, c :: rest, col)
  | [], col, acc => (acc, [], col)

/-- The keyword table of `Lexer.identifier` (source lines 146-155). -/
def keywordType (s : String) : TokenType :=
  if s = "打印" then .PRINT
  else if s = "如果" then .IF
  else if s = "否则" then .ELSE
  else if s = "循环" then .WHILE
  else if s = "导入" then .IMPORT
  else if s = "尝试" then .TRY
  else if s = "捕获" then .CATCH
  else .IDENTIFIER

/-- `Lexer.error`: format a `LexerError` message with the filename and
the current position. -/
def lexErrorMsg (fname : String) (line col : Nat) (msg : String) : String :=
  fname ++ ":" ++ toString line ++ ":" ++ toString col ++ ": " ++ msg

/-- The dispatch loop of `Lexer.get_next_token` (source lines 157-250).
The fuel argument only bounds the whitespace/comment skipping loop; the
wrapper `get_next_token` supplies `chars.length + 1`, which is always
enough because each loop iteration consumes at least one character.

Note the faithful quirk on STRING/NUMBER/IDENTIFIER tokens: the source
builds `Token(..., self.line, self.column)` AFTER the scanning helper
has advanced the cursor (Python evaluates arguments left to right), so
those tokens record the position just past the lexeme, while the
single- and two-character tokens record the position of their first
character. -/
def get_next_token_go : Nat → LexSt → Except String (Token × LexSt)
  | 0, st => .error (lexErrorMsg st.filename st.line st.column "lexer fuel exhausted")
  | fuel + 1, st =>
    match st.chars with
    | [] => .ok (⟨.EOF, .null, st.line, st.column⟩, st)
    | c :: rest =>
      if pyIsSpace c then
        match skip_whitespace (c :: rest) st.line st.column with
        | (chars', line', col') => get_next_token_go fuel ⟨chars', st.filename, line', col'⟩
      else if c = '#' then
        match skip_comment (c :: rest) st.line st.column with
        | (chars', line', col') => get_next_token_go fuel ⟨chars', st.filename, line', col'⟩
      else if c = '"' then
        match string_scan rest st.line (st.column + 1) "" with
        | .error (l, co, msg) => .error (lexErrorMsg st.filename l co msg)
        | .ok (s, chars', line', col') =>
          .ok (⟨.STRING, .s s, line', col'⟩, ⟨chars', st.filename, line', col'⟩)
      else if pyIsDigit c then
        match number_scan (c :: rest) st.column with
        | (n, chars', col') =>
          .ok (⟨.NUMBER, .n n, st.line, col'⟩, ⟨chars', st.filename, st.line, col'⟩)
      else if pyIsAlpha c || c = '_' then
        match identifier_scan (c :: rest) st.column "" with
        | (name, chars', col') =>
          .ok (⟨keywordType name, .s name, st.line, col'⟩, ⟨chars', st.filename, st.line, col'⟩)
      else if c = ';' then .ok (⟨.SEMICOLON, .s ";", st.line, st.column⟩, advance st)
      else if c = '(' then .ok (⟨.LPAREN, .s "(", st.line, st.column⟩, advance st)
      else if c = ')' then .ok (⟨.RPAREN, .s ")", st.line, st.column⟩, advance st)
      else if c = '\x7b' then .ok (⟨.LBRACE, .s "\x7b", st.line, st.column⟩, advance st)
      else if c = '\x7d' then .ok (⟨.RBRACE, .s "\x7d", st.line, st.column⟩, advance st)
      else if c = '+' then .ok (⟨.PLUS, .s "+", st.line, st.column⟩, advance st)
      else if c = '-' then .ok (⟨.MINUS, .s "-", st.line, st.column⟩, advance st)
      else if c = '*' then .ok (⟨.MULTIPLY, .s "*", st.line, st.column⟩, advance st)
      else if c = '/' then .ok (⟨.DIVIDE, .s "/", st.line, st.column⟩, advance st)
      else if c = '=' then
        match rest with
        | '=' :: rest2 =>
          .ok (⟨.COMPARISON, .s "==", st.line, st.column⟩, ⟨rest2, st.filename, st.line, st.column + 2⟩)
        | _ => .ok (⟨.ASSIGN, .s "=", st.line, st.column⟩, advance st)
      else if c = '<' || c = '>' || c = '!' then
        match rest with
        | '=' :: rest2 =>
          .ok (⟨.COMPARISON, .s (String.singleton c ++ "="), st.line, st.column⟩,
               ⟨rest2, st.filename, st.line, st.column + 2⟩)
        | _ => .ok (⟨.COMPARISON, .s (String.singleton c), st.line, st.column⟩, advance st)
      else
        .error (lexErrorMsg st.filename st.line st.column
          ("无法识别的字符: '" ++ String.singleton c ++ "'"))

/-- `Lexer.get_next_token`: the loop above with always-sufficient fuel. -/
def get_next_token (st : LexSt) : Except String (Token × LexSt) :=
  get_next_token_go (st.chars.length + 1) st

/-! ## AST (source lines 252-309) -/

/-- Expression nodes (`Number`, `String`, `Variable`, `BinOp`,
`Comparison`).  `op` fields carry the operator lexeme exactly as the
parser stores `token.value`. -/
inductive Expr
  | Number (value : PyNum)
  | StringLit (value : String)
  | Variable (name : String)
  | BinOp (left : Expr) (op : String) (right : Expr)
  | Comparison (left : Expr) (op : String) (right : Expr)

/-- Statement nodes (`Print`, `Assign`, `If`, `While`, `Import`,
`TryCatch`). -/
inductive Stmt
  | Print (expr : Expr)
  | Assign (var : String) (expr : Expr)
  | If (condition : Expr) (true_block : List Stmt) (false_block : Option (List Stmt))
  | While (condition : Expr) (block : List Stmt)
  | Import (module_name : String)
  | TryCatch (try_block : List Stmt) (catch_block : List Stmt) (error_var : String)

/-! ## Parser (`class Parser`, source lines 311-478) -/

/-- Parser state: the lexer cursor plus the single lookahead token. -/
structure PSt where
  lexer : LexSt
  current_token : Token

/-- `Parser.error`: format a `ParserError` with the filename and the
current token's position. -/
def parserErrorMsg (ps : PSt) (msg : String) : String :=
  ps.lexer.filename ++ ":" ++ toString ps.current_token.line ++ ":"
    ++ toString ps.current_token.column ++ ": " ++ msg

/-- `Parser.eat` (source lines 322-326). -/
def eat (ps : PSt) (tt : TokenType) : Except String PSt :=
  if ps.current_token.type = tt then
    match get_next_token ps.lexer with
    | .ok (t, lx) => .ok ⟨lx, t⟩
    | .error e => .error e
  else
    .error (parserErrorMsg ps ("期望 " ++ ttName tt ++ ", 得到 " ++ ttName ps.current_token.type))

/-- Payload of a token the lexer tagged with a string lexeme.  The
other branches are unreachable for the token kinds the parser reads
them from (the lexer always stores `.s` payloads there). -/
def tokStr : TokVal → String
  | .s s => s
  | _ => ""

/-- Payload of a NUMBER token (always `.n` for lexer-built tokens). -/
def tokNum : TokVal → PyNum
  | .n n => n
  | _ => .int 0

/-- The optional `( identifier? )` binder after `catch`
(source lines 452-458); yields the error-variable name, defaulting to
`_error`. -/
def catch_binder (ps : PSt) : Except String (String × PSt) :=
  if ps.current_token.type = .LPAREN then
    match eat ps .LPAREN with
    | .error e => .error e
    | .ok ps1 =>
      if ps1.current_token.type = .IDENTIFIER then
        let name := tokStr ps1.current_token.value
        match eat ps1 .IDENTIFIER with
        | .error e => .error e
        | .ok ps2 =>
          match eat ps2 .RPAREN with
          | .error e => .error e
          | .ok ps3 => .ok (name, ps3)
      else
        match eat ps1 .RPAREN with
        | .error e => .error e
        | .ok ps2 => .ok ("_error", ps2)
  else .ok ("_error", ps)

mutual

/-- `Parser.factor` (source lines 328-349). -/
def factor (fuel : Nat) (ps : PSt) : Except String (Expr × PSt) :=
  match fuel with
  | 0 => .error (parserErrorMsg ps "parser fuel exhausted")
  | fuel + 1 =>
    let token := ps.current_token
    if token.type = .NUMBER then
      match eat ps .NUMBER with
      | .error e => .error e
      | .ok ps1 => .ok (.Number (tokNum token.value), ps1)
    else if token.type = .STRING then
      match eat ps .STRING with
      | .error e => .error e
      | .ok ps1 => .ok (.StringLit (tokStr token.value), ps1)
    else if token.type = .IDENTIFIER then
      match eat ps .IDENTIFIER with
      | .error e => .error e
      | .ok ps1 => .ok (.Variable (tokStr token.value), ps1)
    else if token.type = .LPAREN then
      match eat ps .LPAREN with
      | .error e => .error e
      | .ok ps1 =>
        match expr fuel ps1 with
        | .error e => .error e
        | .ok (node, ps2) =>
          match eat ps2 .RPAREN with
          | .error e => .error e
          | .ok ps3 => .ok (node, ps3)
    else .error (parserErrorMsg ps ("意外的标记: " ++ ttName token.type))
termination_by structural fuel

/-- `Parser.term` (source lines 351-363): a factor followed by the
`term_loop` over `*` and `/`. -/
def term (fuel : Nat) (ps : PSt) : Except String (Expr × PSt) :=
  match fuel with
  | 0 => .error (parserErrorMsg ps "parser fuel exhausted")
  | fuel + 1 =>
    match factor fuel ps with
    | .error e => .error e
    | .ok (node, ps1) => term_loop fuel node ps1
termination_by structural fuel

/-- The `while`-loop body of `Parser.term`. -/
def term_loop (fuel : Nat) (node : Expr) (ps : PSt) : Except String (Expr × PSt) :=
  match fuel with
  | 0 => .error (parserErrorMsg ps "parser fuel exhausted")
  | fuel + 1 =>
    if ps.current_token.type = .MULTIPLY ∨ ps.current_token.type = .DIVIDE then
      let token := ps.current_token
      match eat ps token.type with
      | .error e => .error e
      | .ok ps1 =>
        match factor fuel ps1 with
        | .error e => .error e
        | .ok (right, ps2) => term_loop fuel (.BinOp node (tokStr token.value) right) ps2
    else .ok (node, ps)
termination_by structural fuel

/-- `Parser.expr` (source lines 365-377): a term followed by the
`expr_loop` over `+` and `-`. -/
def expr (fuel : Nat) (ps : PSt) : Except String (Expr × PSt) :=
  match fuel with
  | 0 => .error (parserErrorMsg ps "parser fuel exhausted")
  | fuel + 1 =>
    match term fuel ps with
    | .error e => .error e
    | .ok (node, ps1) => expr_loop fuel node ps1
termination_by structural fuel

/-- The `while`-loop body of `Parser.expr`. -/
def expr_loop (fuel : Nat) (node : Expr) (ps : PSt) : Except String (Expr × PSt) :=
  match fuel with
  | 0 => .error (parserErrorMsg ps "parser fuel exhausted")
  | fuel + 1 =>
    if ps.current_token.type = .PLUS ∨ ps.current_token.type = .MINUS then
      let token := ps.current_token
      match eat ps token.type with
      | .error e => .error e
      | .ok ps1 =>
        match term fuel ps1 with
        | .error e => .error e
        | .ok (right, ps2) => expr_loop fuel (.BinOp node (tokStr token.value) right) ps2
    else .ok (node, ps)
termination_by structural fuel

/-- `Parser.comparison` (source lines 379-387): an expr, optionally
followed by a single comparison operator and another expr. -/
def comparison (fuel : Nat) (ps : PSt) : Except String (Expr × PSt) :=
  match fuel with
  | 0 => .error (parserErrorMsg ps "parser fuel exhausted")
  | fuel + 1 =>
    match expr fuel ps with
    | .error e => .error e
    | .ok (node, ps1) =>
      if ps1.current_token.type = .COMPARISON then
        let token := ps1.current_token
        match eat ps1 .COMPARISON with
        | .error e => .error e
        | .ok ps2 =>
          match expr fuel ps2 with
          | .error e => .error e
          | .ok (right, ps3) => .ok (.Comparison node (tokStr token.value) right, ps3)
      else .ok (node, ps1)

/-- `Parser.statement` (source lines 389-466). -/
def statement (fuel : Nat) (ps : PSt) : Except String (Stmt × PSt) :=
  match fuel with
  | 0 => .error (parserErrorMsg ps "parser fuel exhausted")
  | fuel + 1 =>
    let token := ps.current_token
    if token.type = .PRINT then
      match eat ps .PRINT with
      | .error e => .error e
      | .ok ps1 =>
        match eat ps1 .LPAREN with
        | .error e => .error e
        | .ok ps2 =>
          match expr fuel ps2 with
          | .error e => .error e
          | .ok (e0, ps3) =>
            match eat ps3 .RPAREN with
            | .error e => .error e
            | .ok ps4 =>
              match eat ps4 .SEMICOLON with
              | .error e => .error e
              | .ok ps5 => .ok (.Print e0, ps5)
    else if token.type = .IDENTIFIER then
      let var_name := tokStr token.value
      match eat ps .IDENTIFIER with
      | .error e => .error e
      | .ok ps1 =>
        match eat ps1 .ASSIGN with
        | .error e => .error e
        | .ok ps2 =>
          match expr fuel ps2 with
          | .error e => .error e
          | .ok (e0, ps3) =>
            match eat ps3 .SEMICOLON with
            | .error e => .error e
            | .ok ps4 => .ok (.Assign var_name e0, ps4)
    else if token.type = .IF then
      match eat ps .IF with
      | .error e => .error e
      | .ok ps1 =>
        match eat ps1 .LPAREN with
        | .error e => .error e
        | .ok ps2 =>
          match comparison fuel ps2 with
          | .error e => .error e
          | .ok (cond, ps3) =>
            match eat ps3 .RPAREN with
            | .error e => .error e
            | .ok ps4 =>
              match eat ps4 .LBRACE with
              | .error e => .error e
              | .ok ps5 =>
                match block fuel ps5 with
                | .error e => .error e
                | .ok (tb, ps6) =>
                  match eat ps6 .RBRACE with
                  | .error e => .error e
                  | .ok ps7 =>
                    if ps7.current_token.type = .ELSE then
                      match eat ps7 .ELSE with
                      | .error e => .error e
                      | .ok ps8 =>
                        match eat ps8 .LBRACE with
                        | .error e => .error e
                        | .ok ps9 =>
                          match block fuel ps9 with
                          | .error e => .error e
                          | .ok (fb, ps10) =>
                            match eat ps10 .RBRACE with
                            | .error e => .error e
                            | .ok ps11 => .ok (.If cond tb (some fb), ps11)
                    else .ok (.If cond tb none, ps7)
    else if token.type = .WHILE then
      match eat ps .WHILE with
      | .error e => .error e
      | .ok ps1 =>
        match eat ps1 .LPAREN with
        | .error e => .error e
        | .ok ps2 =>
          match comparison fuel ps2 with
          | .error e => .error e
          | .ok (cond, ps3) =>
            match eat ps3 .RPAREN with
            | .error e => .error e
            | .ok ps4 =>
              match eat ps4 .LBRACE with
              | .error e => .error e
              | .ok ps5 =>
                match block fuel ps5 with
                | .error e => .error e
                | .ok (b, ps6) =>
                  match eat ps6 .RBRACE with
                  | .error e => .error e
                  | .ok ps7 => .ok (.While cond b, ps7)
    else if token.type = .IMPORT then
      match eat ps .IMPORT with
      | .error e => .error e
      | .ok ps1 =>
        if ps1.current_token.type ≠ .STRING then
          .error (parserErrorMsg ps1 "期望字符串作为模块名")
        else
          let module_name := tokStr ps1.current_token.value
          match eat ps1 .STRING with
          | .error e => .error e
          | .ok ps2 =>
            match eat ps2 .SEMICOLON with
            | .error e => .error e
            | .ok ps3 => .ok (.Import module_name, ps3)
    else if token.type = .TRY then
      match eat ps .TRY with
      | .error e => .error e
      | .ok ps1 =>
        match eat ps1 .LBRACE with
        | .error e => .error e
        | .ok ps2 =>
          match block fuel ps2 with
          | .error e => .error e
          | .ok (tb, ps3) =>
            match eat ps3 .RBRACE with
            | .error e => .error e
            | .ok ps4 =>
              match eat ps4 .CATCH with
              | .error e => .error e
              | .ok ps5 =>
                match catch_binder ps5 with
                | .error e => .error e
                | .ok (error_var, ps6) =>
                  match eat ps6 .LBRACE with
                  | .error e => .error e
                  | .ok ps7 =>
                    match block fuel ps7 with
                    | .error e => .error e
                    | .ok (cb, ps8) =>
                      match eat ps8 .RBRACE with
                      | .error e => .error e
                      | .ok ps9 => .ok (.TryCatch tb cb error_var, ps9)
    else .error (parserErrorMsg ps ("意外的语句: " ++ ttName token.type))
termination_by structural fuel

/-- `Parser.block` (source lines 468-472). -/
def block (fuel : Nat) (ps : PSt) : Except String (List Stmt × PSt) :=
  match fuel with
  | 0 => .error (parserErrorMsg ps "parser fuel exhausted")
  | fuel + 1 =>
    if ps.current_token.type ≠ .RBRACE ∧ ps.current_token.type ≠ .EOF then
      match statement fuel ps with
      | .error e => .error e
      | .ok (s, ps1) =>
        match block fuel ps1 with
        | .error e => .error e
        | .ok (l, ps2) => .ok (s :: l, ps2)
    else .ok ([], ps)
termination_by structural fuel

/-- `Parser.parse` (source lines 474-478). -/
def parse (fuel : Nat) (ps : PSt) : Except String (List Stmt × PSt) :=
  match fuel with
  | 0 => .error (parserErrorMsg ps "parser fuel exhausted")
  | fuel + 1 =>
    if ps.current_token.type ≠ .EOF then
      match statement fuel ps with
      | .error e => .error e
      | .ok (s, ps1) =>
        match parse fuel ps1 with
        | .error e => .error e
        | .ok (l, ps2) => .ok (s :: l, ps2)
    else .ok ([], ps)
termination_by structural fuel

end

/-- `Parser.__init__`: prime the lookahead with the first token. -/
def parserInit (lx : LexSt) : Except String PSt :=
  match get_next_token lx with
  | .error e => .error e
  | .ok (t, lx1) => .ok ⟨lx1, t⟩

/-- `Lexer(text, filename)` + `Parser(lexer)` + `parser.parse()`: lex
and parse a whole source text.  The quadratic fuel bound is an
artifact of the embedding and is ample for every program whose parse
terminates; claims only quantify over runs in which it returns `.ok`. -/
def runFrontend (source fname : String) : Except String (List Stmt) :=
  match parserInit ⟨source.toList, fname, 1, 1⟩ with
  | .error e => .error e
  | .ok ps =>
    match parse ((source.length + 4) * (source.length + 4) + 16) ps with
    | .error e => .error e
    | .ok (prog, _) => .ok prog

/-! ## Evaluator (`class Interpreter`, source lines 480-678) -/

/-- `", ".join(keys)` — modelled directly so it computes by kernel
reduction. -/
def joinWith (sep : String) : List String → String
  | [] => ""
  | [x] => x
  | x :: rest => x ++ sep ++ joinWith sep rest

/-- Expression dispatch of `Interpreter.visit`: `visit_Number`,
`visit_String`, `visit_Variable` (source lines 499-510), and the
operand evaluation of `visit_BinOp` / `visit_Comparison` (source
lines 522-591).  Expressions read the environment and never mutate
it. -/
def evalExpr : Expr → List (String × Value) → Except String Value
  | .Number v, _ => .ok (numValue v)
  | .StringLit s, _ => .ok (.str s)
  | .Variable name, vars =>
    match dictGet name vars with
    | some v => .ok v
    | none =>
      .error ("未定义的变量: '" ++ name ++ "'。可用的变量: ["
        ++ joinWith ", " (vars.map Prod.fst) ++ "]")
  | .BinOp l op r, vars =>
    match evalExpr l vars with
    | .error e => .error e
    | .ok lv =>
      match evalExpr r vars with
      | .error e => .error e
      | .ok rv => applyBinOp op lv rv
  | .Comparison l op r, vars =>
    match evalExpr l vars with
    | .error e => .error e
    | .ok lv =>
      match evalExpr r vars with
      | .error e => .error e
      | .ok rv => applyComparison op lv rv

/-- Interpreter state: the environment `self.variables`, the set
`self.imported_modules` (as the list of names in insertion order), and
a ghost log of the module files read so far (one entry per
`open(module_path).read()` the interpreter performs; it exists only to
state input/output claims about file I/O). -/
structure St where
  vars : List (String × Value)
  imported_modules : List String
  reads : List String
deriving DecidableEq

/-- `Interpreter()`: empty environment, empty imported-module set (and
an empty read log). -/
def initSt : St := ⟨[], [], []⟩

/-- Result of running a statement: normal completion or a raised
`RuntimeError`, each carrying the state as mutated so far (the Python
dict is shared, so mutations survive an exception); `oom` is the
out-of-fuel artifact of the embedding. -/
inductive Res
  | ok (st : St)
  | err (msg : String) (st : St)
  | oom
deriving DecidableEq

/-- `max_iterations` of `visit_While` (source line 606). -/
def max_iterations : Nat := 10000

/-- The condition check of `visit_If` (source lines 594-596): the
value must be a Python `bool` (`isinstance(condition, bool)`), and the
branch taken is the boolean itself. -/
def visit_If_cond (v : Value) : Except String Bool :=
  if v.isBool = false then .error ("条件表达式必须为布尔值，得到: " ++ v.typeName)
  else .ok v.truthy

/-- Branch selection of `visit_If` applied to the evaluated condition
and the (lazily equivalent, here eagerly computed — evaluation is
pure) results of the two branch blocks. -/
def visit_If_result (cond : Except String Value) (onTrue onFalse : Res) (st : St) : Res :=
  match cond with
  | .error m => .err m st
  | .ok v =>
    match visit_If_cond v with
    | .error m => .err m st
    | .ok true => onTrue
    | .ok false => onFalse

/-- End of `visit_Import`: restore the importer's
`imported_modules` set around the nested interpreter's result and wrap
its error message, mirroring source lines 640-646 (the nested
interpreter shares `variables` and the read log but not the set). -/
def import_finish (name : String) (imported : List String) (r : Res) : Res :=
  match r with
  | .ok st3 => .ok ⟨st3.vars, imported, st3.reads⟩
  | .err m st3 =>
    .err ("导入模块 '" ++ name ++ "' 时出错: " ++ m) ⟨st3.vars, imported, st3.reads⟩
  | .oom => .oom

mutual

/-- Statement dispatch of `Interpreter.visit`: `visit_Print`,
`visit_Assign` (source lines 512-520), `visit_If` (593-603),
`visit_While` (605-615), `visit_Import` (617-646), `visit_TryCatch`
(666-674).

`visit_Import` mirrors the source: an already-imported name returns at
once; otherwise the name is added to `imported_modules` BEFORE
resolution, the file is read (logged in `reads`), its text is lexed
and parsed, and the body runs in a FRESH interpreter instance that
shares `variables` (and the ghost read log) but starts with an EMPTY
`imported_modules` set; front-end and runtime errors of the module are
wrapped.  The separate "unreadable file" error of the source is not
distinguishable here because the filesystem abstraction `fs` merges
resolution and reading. -/
def evalStmt (fuel : Nat) (fs : String → Option String) (s : Stmt) (st : St) : Res :=
  match s with
  | .Print e =>
    match evalExpr e st.vars with
    | .error m => .err m st
    | .ok _ => .ok st
  | .Assign var e =>
    match evalExpr e st.vars with
    | .error m => .err m st
    | .ok v => .ok ⟨dictSet var v st.vars, st.imported_modules, st.reads⟩
  | .If c tb fb =>
    visit_If_result (evalExpr c st.vars) (evalBlock fuel fs tb st)
      (evalBlock fuel fs (fb.getD []) st) st
  | .While c b => evalWhile fuel fs c b 0 st
  | .Import name =>
    if name ∈ st.imported_modules then .ok st
    else
      match fs name, fuel with
      | none, _ => .err ("找不到模块: " ++ name) ⟨st.vars, st.imported_modules ++ [name], st.reads⟩
      | some _, 0 => .oom
      | some code, fuel1 + 1 =>
        match runFrontend code name with
        | .error e =>
          .err ("导入模块 '" ++ name ++ "' 时出错: " ++ e)
            ⟨st.vars, st.imported_modules ++ [name], st.reads ++ [name]⟩
        | .ok prog =>
          import_finish name (st.imported_modules ++ [name])
            (evalBlock fuel1 fs prog ⟨st.vars, [], st.reads ++ [name]⟩)
  | .TryCatch tb cb ev =>
    match evalBlock fuel fs tb st with
    | .ok st1 => .ok st1
    | .err m st1 =>
      evalBlock fuel fs cb ⟨dictSet ev (.str m) st1.vars, st1.imported_modules, st1.reads⟩
    | .oom => .oom
termination_by (fuel, sizeOf s, 0)
decreasing_by
  all_goals simp_wf
  all_goals first
    | (apply Prod.Lex.right; apply Prod.Lex.left
       have hc : 0 < sizeOf c := by cases c <;> simp_arith
       omega)
    | (apply Prod.Lex.right; apply Prod.Lex.left
       have hc : 0 < sizeOf c := by cases c <;> simp_arith
       rcases fb with _ | fbl <;> simp [Option.getD] <;> omega)
    | decreasing_tactic

/-- Running the statements of a block in order, stopping at the first
failure (the `for stmt in block: self.visit(stmt)` loops, and
`Interpreter.interpret`, source lines 676-678). -/
def evalBlock (fuel : Nat) (fs : String → Option String) (l : List Stmt) (st : St) : Res :=
  match l with
  | [] => .ok st
  | s :: rest =>
    match evalStmt fuel fs s st with
    | .ok st1 => evalBlock fuel fs rest st1
    | r => r
termination_by (fuel, sizeOf l, 0)

/-- The loop of `visit_While` (source lines 605-615): re-evaluate the
condition (by Python truthiness — there is NO boolean type check
here, unlike `visit_If`), run the body, then increment the counter
and fail once it exceeds `max_iterations`. -/
def evalWhile (fuel : Nat) (fs : String → Option String) (c : Expr) (b : List Stmt)
    (iterations : Nat) (st : St) : Res :=
  match evalExpr c st.vars with
  | .error m => .err m st
  | .ok v =>
    if v.truthy then
      match evalBlock fuel fs b st with
      | .ok st1 =>
        let iterations1 := iterations + 1
        if max_iterations < iterations1 then .err "循环次数过多，可能陷入无限循环" st1
        else evalWhile fuel fs c b iterations1 st1
      | r => r
    else .ok st
termination_by (fuel, sizeOf b + 1, max_iterations + 1 - iterations)
decreasing_by
  all_goals simp_wf
  all_goals first
    | (apply Prod.Lex.right; apply Prod.Lex.right; omega)
    | decreasing_tactic

end

/-- `Interpreter.interpret(ast)` from a given state. -/
def interpret (fuel : Nat) (fs : String → Option String) (prog : List Stmt) (st : St) : Res :=
  evalBlock fuel fs prog st

/-! ## The `While` iteration guard (claim C1) -/

/-- Behaviour of the `visit_While` loop from iteration count `k` when
the condition always yields `True` and the body always succeeds,
transforming the state by `f` and preserving the invariant `P`: the
loop runs the body once per remaining budget step and then raises the
iteration-guard `RuntimeError`, having executed the body
`max_iterations + 1 - k` times in total. -/
theorem evalWhile_true_inv (fuel : Nat) (fs : String → Option String)
    (c : Expr) (b : List Stmt) (P : St → Prop) (f : St → St)
    (hc : ∀ s, P s → evalExpr c s.vars = .ok (.bool true))
    (hb : ∀ s, P s → evalBlock fuel fs b s = .ok (f s) ∧ P (f s)) :
    ∀ (n k : Nat), k + n = max_iterations → ∀ st, P st →
      evalWhile fuel fs c b k st
        = .err "循环次数过多，可能陷入无限循环" (f^[n + 1] st) := by
  intro n
  induction n with
  | zero =>
    intro k hk st hP
    rw [evalWhile]
    rw [hc st hP]
    simp only [Value.truthy, if_true]
    rw [(hb st hP).1]
    have hlim : max_iterations < k + 1 := by omega
    simp [hlim]
  | succ n ih =>
    intro k hk st hP
    rw [evalWhile]
    rw [hc st hP]
    simp only [Value.truthy, if_true]
    rw [(hb st hP).1]
    have hlim : ¬ (max_iterations < k + 1) := by omega
    simp only [hlim, if_false]
    have := ih (k + 1) (by omega) (f st) (hb st hP).2
    rw [this, ← Function.iterate_succ_apply]

/-- C1 (amended): for every `While` whose condition always evaluates
to the boolean `true` and whose body always succeeds (transforming the
state by `f` inside the invariant `P`), evaluation halts with the
iteration-guard `RuntimeError` after exactly `max_iterations + 1 =
10001` completed body iterations (the final state is `f` iterated
10001 times), not after 10,000 as the claim states: the source
increments `iterations` after the body and only then tests
`iterations > max_iterations`. -/
theorem visit_While_guard (fuel : Nat) (fs : String → Option String)
    (c : Expr) (b : List Stmt) (P : St → Prop) (f : St → St) (st : St)
    (hc : ∀ s, P s → evalExpr c s.vars = .ok (.bool true))
    (hb : ∀ s, P s → evalBlock fuel fs b s = .ok (f s) ∧ P (f s))
    (hP : P st) :
    evalStmt fuel fs (.While c b) st
      = .err "循环次数过多，可能陷入无限循环" (f^[max_iterations + 1] st) := by
  rw [evalStmt]
  exact evalWhile_true_inv fuel fs c b P f hc hb max_iterations 0 (by omega) st hP

/-- Witness for `visit_While_guard`: the concrete loop
`while (0 < 1) {}` from the initial state ends in the iteration-guard
error (with the state unchanged, since the body is empty). -/
theorem visit_While_guard_witness :
    evalStmt 0 (fun _ => none)
      (.While (.Comparison (.Number (.int 0)) "<" (.Number (.int 1))) []) initSt
      = .err "循环次数过多，可能陷入无限循环" initSt := by
  have h := visit_While_guard 0 (fun _ => none)
    (.Comparison (.Number (.int 0)) "<" (.Number (.int 1))) []
    (fun _ => True) id initSt
    (fun s _ => by rfl)
    (fun s _ => ⟨by rw [evalBlock]; rfl, trivial⟩)
    trivial
  rw [Function.iterate_id] at h
  exact h

/-- The family of states `i ↦ k` used by the C1 counterexample. -/
def iSt (k : Int) : St := ⟨[("i", .int k)], [], []⟩

/-- The effect of the body `i = i + 1;` on such a state. -/
def iStep (s : St) : St :=
  match dictGet "i" s.vars with
  | some (.int k) => iSt (k + 1)
  | _ => s

theorem iStep_iterate (n : Nat) : ∀ k : Int, iStep^[n] (iSt k) = iSt (k + n) := by
  induction n with
  | zero => intro k; simp
  | succ n ih =>
    intro k
    rw [Function.iterate_succ_apply]
    have h1 : iStep (iSt k) = iSt (k + 1) := by rfl
    rw [h1, ih]
    congr 1
    omega

/-- C1 (counterexample to the claim as stated): running
`while (0 < 1) { i = i + 1; }` from `i = 0` raises the loop-guard
`RuntimeError` with `i = 10001` — the loop completed 10,001 body
iterations, and the guard fired at the 10,001st (not the 10,001st
condition check after 10,000 iterations as claimed: 10,001 condition
checks all succeeded and each was followed by a full body run). -/
theorem visit_While_guard_count_cex :
    evalStmt 0 (fun _ => none)
      (.While (.Comparison (.Number (.int 0)) "<" (.Number (.int 1)))
        [.Assign "i" (.BinOp (.Variable "i") "+" (.Number (.int 1)))]) (iSt 0)
      = .err "循环次数过多，可能陷入无限循环" ⟨[("i", .int 10001)], [], []⟩ ∧
    (⟨[("i", .int 10001)], [], []⟩ : St) ≠ ⟨[("i", .int 10000)], [], []⟩ := by
  constructor
  · rw [evalStmt]
    have h := evalWhile_true_inv 0 (fun _ => none)
      (.Comparison (.Number (.int 0)) "<" (.Number (.int 1)))
      [.Assign "i" (.BinOp (.Variable "i") "+" (.Number (.int 1)))]
      (fun s => ∃ k : Int, s = iSt k) iStep
      (fun s _ => by rfl)
      ?hb max_iterations 0 (by omega) (iSt 0) ⟨0, rfl⟩
    · rw [h, iStep_iterate]
      rfl
    · rintro s ⟨k, rfl⟩
      constructor
      · have he : evalExpr (.BinOp (.Variable "i") "+" (.Number (.int 1))) (iSt k).vars
            = .ok (.int (k + 1)) := by rfl
        rw [evalBlock.eq_def]
        simp only [evalStmt, he, evalBlock]
        rfl
      · exact ⟨k + 1, rfl⟩
  · intro h
    have := congrArg (fun s : St => dictGet "i" s.vars) h
    simp [iSt, dictGet] at this

/-! ## Condition typing of `If` vs `While` (claim C2) -/

/-- C2 (amended): `visit_If` rejects every non-boolean condition value
with a `RuntimeError`, but `visit_While` performs NO type check: it
tests the condition by Python truthiness, so a falsy non-boolean value
(zero, empty text) makes the loop exit normally and a truthy one makes
it run the body — contrary to the claim that a `While` whose condition
yields a number or text raises rather than running or skipping the
body. -/
theorem cond_typing (fuel : Nat) (fs : String → Option String) (c : Expr)
    (tb : List Stmt) (fb : Option (List Stmt)) (b : List Stmt) (st : St) (v : Value)
    (hv : evalExpr c st.vars = .ok v) :
    (v.isBool = false →
      evalStmt fuel fs (.If c tb fb) st
        = .err ("条件表达式必须为布尔值，得到: " ++ v.typeName) st)
    ∧ (v.truthy = false → evalStmt fuel fs (.While c b) st = .ok st)
    ∧ (v.truthy = true → ∀ stB, evalBlock fuel fs b st = .ok stB →
        evalStmt fuel fs (.While c b) st = evalWhile fuel fs c b 1 stB) := by
  refine ⟨?_, ?_, ?_⟩
  · intro hbool
    simp only [evalStmt, hv]
    simp [visit_If_result, visit_If_cond, hbool]
  · intro ht
    rw [evalStmt, evalWhile, hv]
    simp [ht]
  · intro ht stB hB
    rw [evalStmt, evalWhile, hv]
    simp only [ht, if_true, hB]
    have : ¬ (max_iterations < 0 + 1) := by simp [max_iterations]
    simp [this]

/-- Witness for `cond_typing`: an `If` on the integer 3 raises the
boolean-condition `RuntimeError`, while a `While` on the empty string
just skips. -/
theorem cond_typing_witness :
    evalStmt 0 (fun _ => none) (.If (.Number (.int 3)) [] none) initSt
      = .err "条件表达式必须为布尔值，得到: int" initSt
    ∧ evalStmt 0 (fun _ => none) (.While (.StringLit "") []) initSt = .ok initSt := by
  constructor
  · exact (cond_typing 0 (fun _ => none) (.Number (.int 3)) [] none [] initSt
      (.int 3) (by rfl)).1 (by rfl)
  · exact (cond_typing 0 (fun _ => none) (.StringLit "") [] none [] initSt
      (.str "") (by rfl)).2.1 (by rfl)

/-- C2 (counterexample to the claim as stated): a `While` whose
condition evaluates to the integer 0 — not a boolean — completes
normally instead of raising a `RuntimeError`. -/
theorem cond_typing_cex :
    evalStmt 0 (fun _ => none) (.While (.Number (.int 0)) []) initSt = .ok initSt := by
  rw [evalStmt, evalWhile]
  simp [evalExpr, numValue, Value.truthy]

/-! ## Ordering comparisons (claim C5) -/

theorem typeName_eq_isNumeric {lv rv : Value} (h : lv.typeName = rv.typeName) :
    lv.isNumeric = rv.isNumeric := by
  cases lv <;> cases rv <;> simp_all [Value.typeName, Value.isNumeric]

/-- C5 (amended): for `<`, `<=`, `>`, `>=` the interpreter first
requires the two operand values to have the SAME Python type
(`type(left) != type(right)` check), so one integer and one fraction
raise the type-mismatch `RuntimeError` rather than comparing; when the
types are equal, numeric-like operands (int, float, or bool — Python
booleans are ints) succeed with the boolean of the numeric order, and
same-type non-numeric operands (two texts) raise the
unsupported-comparison `RuntimeError`. -/
theorem visit_Comparison_ordering (opv : String) (l r : Expr)
    (vars : List (String × Value)) (lv rv : Value)
    (hop : opv = "<" ∨ opv = "<=" ∨ opv = ">" ∨ opv = ">=")
    (hl : evalExpr l vars = .ok lv) (hr : evalExpr r vars = .ok rv) :
    (lv.typeName ≠ rv.typeName →
      evalExpr (.Comparison l opv r) vars
        = .error ("比较运算类型不匹配: " ++ lv.typeName ++ " 和 " ++ rv.typeName))
    ∧ (lv.typeName = rv.typeName → lv.isNumeric = true →
      evalExpr (.Comparison l opv r) vars = .ok (.bool (ordTest opv lv rv)))
    ∧ (lv.typeName = rv.typeName → lv.isNumeric = false →
      evalExpr (.Comparison l opv r) vars
        = .error ("不支持的类型比较: " ++ lv.typeName ++ " " ++ opv ++ " " ++ rv.typeName)) := by
  have hred : evalExpr (.Comparison l opv r) vars = applyComparison opv lv rv := by
    simp only [evalExpr, hl, hr]
  refine ⟨?_, ?_, ?_⟩
  · intro hne
    rw [hred]
    rcases hop with rfl | rfl | rfl | rfl <;> simp [applyComparison, hne]
  · intro heq hnum
    have hrnum : rv.isNumeric = true := (typeName_eq_isNumeric heq) ▸ hnum
    rw [hred]
    rcases hop with rfl | rfl | rfl | rfl <;> simp [applyComparison, heq, hnum, hrnum]
  · intro heq hnum
    have hrnum : rv.isNumeric = false := (typeName_eq_isNumeric heq) ▸ hnum
    rw [hred]
    rcases hop with rfl | rfl | rfl | rfl <;> simp [applyComparison, heq, hnum, hrnum]

/-- Witness for `visit_Comparison_ordering`: `1 < 2` succeeds with the
boolean `true`, and `"a" < "b"` (same type, not numeric) raises. -/
theorem visit_Comparison_ordering_witness :
    evalExpr (.Comparison (.Number (.int 1)) "<" (.Number (.int 2))) [] = .ok (.bool true)
    ∧ evalExpr (.Comparison (.StringLit "a") "<" (.StringLit "b")) []
        = .error "不支持的类型比较: str < str" := by
  constructor
  · have h := (visit_Comparison_ordering "<" (.Number (.int 1)) (.Number (.int 2)) []
      (.int 1) (.int 2) (Or.inl rfl) (by rfl) (by rfl)).2.1 (by rfl) (by rfl)
    rw [h]
    rfl
  · have h := (visit_Comparison_ordering "<" (.StringLit "a") (.StringLit "b") []
      (.str "a") (.str "b") (Or.inl rfl) (by rfl) (by rfl)).2.2 (by rfl) (by rfl)
    rw [h]
    rfl

/-- C5 (counterexample to the claim as stated): comparing the integer
`1` with the fraction `3/2` — both numeric — does not succeed: the
`type(left) != type(right)` check fires first and raises the
type-mismatch `RuntimeError`. -/
theorem visit_Comparison_ordering_cex :
    evalExpr (.Comparison (.Number (.int 1)) "<" (.Number (.float (3 / 2)))) []
      = .error "比较运算类型不匹配: int 和 float" := by
  rfl

/-! ## Unbound variables (claim C7) -/

/-- C7: reading an unbound name fails with a `RuntimeError` whose
message contains the missing name and the comma-separated list of the
currently bound names (`visit_Variable`, source lines 505-510). -/
theorem visit_Variable_unbound (name : String) (vars : List (String × Value))
    (h : dictGet name vars = none) :
    ∃ msg, evalExpr (.Variable name) vars = .error msg
      ∧ (∃ p s, msg = p ++ name ++ s)
      ∧ (∃ p s, msg = p ++ joinWith ", " (vars.map Prod.fst) ++ s) := by
  refine ⟨"未定义的变量: '" ++ name ++ "'。可用的变量: ["
      ++ joinWith ", " (vars.map Prod.fst) ++ "]", ?_, ?_, ?_⟩
  · simp only [evalExpr, h]
  · exact ⟨"未定义的变量: '",
      "'。可用的变量: [" ++ joinWith ", " (vars.map Prod.fst) ++ "]",
      by simp [String.append_assoc]⟩
  · exact ⟨"未定义的变量: '" ++ name ++ "'。可用的变量: [", "]",
      by simp [String.append_assoc]⟩

/-- Witness for `visit_Variable_unbound`: reading `y` in the empty
environment. -/
theorem visit_Variable_unbound_witness :
    dictGet "y" [] = none ∧
    (∃ msg, evalExpr (.Variable "y") [] = .error msg
      ∧ (∃ p s, msg = p ++ "y" ++ s)
      ∧ (∃ p s, msg = p ++ joinWith ", " (([] : List (String × Value)).map Prod.fst) ++ s)) :=
  ⟨rfl, visit_Variable_unbound "y" [] rfl⟩

/-! ## Error messages are never empty -/

theorem str_append_ne_empty {s : String} (t : String) (h : s ≠ "") : s ++ t ≠ "" := by
  intro he
  apply h
  have hd := congrArg String.data he
  rw [String.data_append] at hd
  rcases List.append_eq_nil.mp hd with ⟨h1, _⟩
  cases s
  simp_all

theorem applyBinOp_err_ne (op : String) (l r : Value) (m : String)
    (h : applyBinOp op l r = .error m) : m ≠ "" := by
  unfold applyBinOp at h
  split_ifs at h <;> simp_all <;> subst h <;>
    repeat first
      | decide
      | (apply str_append_ne_empty)

theorem applyComparison_err_ne (op : String) (l r : Value) (m : String)
    (h : applyComparison op l r = .error m) : m ≠ "" := by
  unfold applyComparison at h
  split_ifs at h <;> simp_all <;> subst h <;>
    repeat first
      | decide
      | (apply str_append_ne_empty)

theorem evalExpr_err_ne (e : Expr) (vars : List (String × Value)) (m : String)
    (h : evalExpr e vars = .error m) : m ≠ "" := by
  induction e with
  | Number v => simp [evalExpr] at h
  | StringLit s => simp [evalExpr] at h
  | Variable name =>
    simp only [evalExpr] at h
    rcases hg : dictGet name vars with _ | w
    · rw [hg] at h
      simp only [Except.error.injEq] at h
      subst h
      repeat first
        | decide
        | (apply str_append_ne_empty)
    · rw [hg] at h; simp at h
  | BinOp a op b iha ihb =>
    simp only [evalExpr] at h
    rcases ha : evalExpr a vars with ma | va
    · rw [ha] at h; simp at h; exact iha (h ▸ ha)
    · rw [ha] at h
      rcases hb : evalExpr b vars with mb | vb
      · rw [hb] at h; simp at h; exact ihb (h ▸ hb)
      · rw [hb] at h
        exact applyBinOp_err_ne op va vb m h
  | Comparison a op b iha ihb =>
    simp only [evalExpr] at h
    rcases ha : evalExpr a vars with ma | va
    · rw [ha] at h; simp at h; exact iha (h ▸ ha)
    · rw [ha] at h
      rcases hb : evalExpr b vars with mb | vb
      · rw [hb] at h; simp at h; exact ihb (h ▸ hb)
      · rw [hb] at h
        exact applyComparison_err_ne op va vb m h

mutual

theorem evalStmt_err_ne (fuel : Nat) (fs : String → Option String) (s : Stmt) (st : St) :
    ∀ m st1, evalStmt fuel fs s st = .err m st1 → m ≠ "" := by
  intro m st1 h
  match s with
  | .Print e =>
    rw [evalStmt] at h
    rcases he : evalExpr e st.vars with me | ve
    · rw [he] at h; simp at h; exact h.1 ▸ evalExpr_err_ne e st.vars me he
    · rw [he] at h; simp at h
  | .Assign n e =>
    rw [evalStmt] at h
    rcases he : evalExpr e st.vars with me | ve
    · rw [he] at h; simp at h; exact h.1 ▸ evalExpr_err_ne e st.vars me he
    · rw [he] at h; simp at h
  | .If c tb fb =>
    rw [evalStmt] at h
    unfold visit_If_result at h
    split at h
    · rename_i me heq
      simp at h
      exact h.1 ▸ evalExpr_err_ne c st.vars me heq
    · rename_i ve heq
      split at h
      · rename_i mv hv
        simp only [Res.err.injEq] at h
        unfold visit_If_cond at hv
        split_ifs at hv
        simp only [Except.error.injEq] at hv
        rw [← h.1, ← hv]
        exact str_append_ne_empty _ (by decide)
      · exact evalBlock_err_ne fuel fs tb st m st1 h
      · exact evalBlock_err_ne fuel fs (fb.getD []) st m st1 h
  | .While c b =>
    rw [evalStmt] at h
    exact evalWhile_err_ne fuel fs c b 0 st m st1 h
  | .Import name =>
    rw [evalStmt.eq_def] at h
    dsimp only [] at h
    split at h
    · simp at h
    · split at h
      · simp at h
        exact h.1 ▸ str_append_ne_empty _ (by decide)
      · simp at h
      · split at h
        · simp at h
          exact h.1 ▸ str_append_ne_empty _
            (str_append_ne_empty _ (str_append_ne_empty _ (by decide)))
        · unfold import_finish at h
          split at h
          · simp at h
          · simp at h
            exact h.1 ▸ str_append_ne_empty _
              (str_append_ne_empty _ (str_append_ne_empty _ (by decide)))
          · simp at h
  | .TryCatch tb cb ev =>
    rw [evalStmt] at h
    rcases ht : evalBlock fuel fs tb st with st2 | ⟨mt, st2⟩ | _
    · rw [ht] at h; simp at h
    · rw [ht] at h
      exact evalBlock_err_ne fuel fs cb _ m st1 h
    · rw [ht] at h; simp at h
termination_by (fuel, sizeOf s, 0)
decreasing_by
  all_goals simp_wf
  all_goals first
    | (apply Prod.Lex.right; apply Prod.Lex.left
       have hc : 0 < sizeOf c := by cases c <;> simp_arith
       omega)
    | (apply Prod.Lex.right; apply Prod.Lex.left
       have hc : 0 < sizeOf c := by cases c <;> simp_arith
       rcases fb with _ | fbl <;> simp [Option.getD] <;> omega)
    | decreasing_tactic

theorem evalBlock_err_ne (fuel : Nat) (fs : String → Option String) (l : List Stmt) (st : St) :
    ∀ m st1, evalBlock fuel fs l st = .err m st1 → m ≠ "" := by
  intro m st1 h
  match l with
  | [] => rw [evalBlock] at h; simp at h
  | s :: rest =>
    rw [evalBlock] at h
    rcases hs : evalStmt fuel fs s st with st2 | ⟨ms, st2⟩ | _
    · rw [hs] at h
      exact evalBlock_err_ne fuel fs rest st2 m st1 h
    · rw [hs] at h
      simp at h
      exact h.1 ▸ evalStmt_err_ne fuel fs s st ms st2 hs
    · rw [hs] at h; simp at h
termination_by (fuel, sizeOf l, 0)

theorem evalWhile_err_ne (fuel : Nat) (fs : String → Option String) (c : Expr) (b : List Stmt)
    (iterations : Nat) (st : St) :
    ∀ m st1, evalWhile fuel fs c b iterations st = .err m st1 → m ≠ "" := by
  intro m st1 h
  rw [evalWhile] at h
  rcases he : evalExpr c st.vars with me | ve
  · rw [he] at h; simp at h; exact h.1 ▸ evalExpr_err_ne c st.vars me he
  · rw [he] at h
    by_cases ht : ve.truthy
    · simp only [ht, if_true] at h
      rcases hb : evalBlock fuel fs b st with st2 | ⟨mb, st2⟩ | _
      · rw [hb] at h
        by_cases hlim : max_iterations < iterations + 1
        · simp [hlim] at h
          exact h.1 ▸ (by decide : ("循环次数过多，可能陷入无限循环" : String) ≠ "")
        · simp only [hlim, if_false] at h
          exact evalWhile_err_ne fuel fs c b (iterations + 1) st2 m st1 h
      · rw [hb] at h
        simp at h
        exact h.1 ▸ evalBlock_err_ne fuel fs b st mb st2 hb
      · rw [hb] at h; simp at h
    · simp [ht] at h
termination_by (fuel, sizeOf b + 1, max_iterations + 1 - iterations)
decreasing_by
  all_goals simp_wf
  all_goals first
    | (apply Prod.Lex.right; apply Prod.Lex.right; omega)
    | decreasing_tactic

end

/-! ## `TryCatch` semantics (claims C6 and C10) -/

/-- C6: a `TryCatch` whose try-block completes normally returns that
result untouched (the catch-block does not run and the catch variable
is not bound by the `TryCatch`); a try-block failure transfers control
to the catch-block evaluated in the failure-time state with the catch
variable bound to the failure's textual message, and that message is
never the empty string (`visit_TryCatch`, source lines 666-674). -/
theorem visit_TryCatch_semantics (fuel : Nat) (fs : String → Option String)
    (t cb : List Stmt) (v : String) (st : St) :
    (∀ st1, evalBlock fuel fs t st = .ok st1 →
      evalStmt fuel fs (.TryCatch t cb v) st = .ok st1)
    ∧ (∀ m st1, evalBlock fuel fs t st = .err m st1 →
      evalStmt fuel fs (.TryCatch t cb v) st
        = evalBlock fuel fs cb ⟨dictSet v (.str m) st1.vars, st1.imported_modules, st1.reads⟩
      ∧ m ≠ "") := by
  constructor
  · intro st1 h
    rw [evalStmt.eq_def]
    dsimp only []
    rw [h]
  · intro m st1 h
    refine ⟨?_, evalBlock_err_ne fuel fs t st m st1 h⟩
    rw [evalStmt.eq_def]
    dsimp only []
    rw [h]

/-- Witness for `visit_TryCatch_semantics`: catching a division by
zero binds the error text to `e` and runs the (empty) catch-block from
that state; a successful try-block result passes through unchanged. -/
theorem visit_TryCatch_semantics_witness :
    evalStmt 0 (fun _ => none)
      (.TryCatch [.Assign "x" (.BinOp (.Number (.int 1)) "/" (.Number (.int 0)))] [] "e") initSt
      = evalBlock 0 (fun _ => none) [] ⟨dictSet "e" (.str "除以零错误") [], [], []⟩
    ∧ ("除以零错误" : String) ≠ ""
    ∧ evalStmt 0 (fun _ => none) (.TryCatch [] [.Print (.Variable "nope")] "e") initSt
      = .ok initSt := by
  have hfail : evalBlock 0 (fun _ => none)
      [.Assign "x" (.BinOp (.Number (.int 1)) "/" (.Number (.int 0)))] initSt
      = .err "除以零错误" initSt := by
    rw [evalBlock.eq_def]
    dsimp only []
    rw [evalStmt.eq_def]
    dsimp only []
    rfl
  have h2 := (visit_TryCatch_semantics 0 (fun _ => none)
    [.Assign "x" (.BinOp (.Number (.int 1)) "/" (.Number (.int 0)))] [] "e" initSt).2
    "除以零错误" initSt hfail
  have h1 := (visit_TryCatch_semantics 0 (fun _ => none)
    [] [.Print (.Variable "nope")] "e" initSt).1 initSt (by rw [evalBlock])
  exact ⟨h2.1, h2.2, h1⟩

theorem evalBlock_append (fuel : Nat) (fs : String → Option String) :
    ∀ (l1 l2 : List Stmt) (st : St),
      evalBlock fuel fs (l1 ++ l2) st
        = match evalBlock fuel fs l1 st with
          | .ok st1 => evalBlock fuel fs l2 st1
          | r => r := by
  intro l1
  induction l1 with
  | nil =>
    intro l2 st
    rw [evalBlock]
    simp
  | cons s rest ih =>
    intro l2 st
    simp only [List.cons_append]
    rw [evalBlock.eq_def]
    conv_rhs => rw [evalBlock.eq_def]
    dsimp only []
    rcases hs : evalStmt fuel fs s st with st1 | ⟨ms, st1⟩ | _ <;> simp [ih]

theorem evalStmt_Assign_error (fuel : Nat) (fs : String → Option String)
    (n : String) (e : Expr) (st : St) (m : String)
    (h : evalExpr e st.vars = .error m) :
    evalStmt fuel fs (.Assign n e) st = .err m st := by
  rw [evalStmt.eq_def]
  dsimp only []
  rw [h]

/-- C10: environment mutations are not rolled back on failure.  If the
try-block is a run of statements `pre` that completes in state `st1`
followed by an assignment whose right-hand side fails, the catch-block
runs from `st1` itself (plus the catch-variable binding) — the
partially updated state — and every binding of `st1` other than the
catch variable is still readable there unchanged. -/
theorem tryCatch_no_rollback (fuel : Nat) (fs : String → Option String)
    (pre rest cb : List Stmt) (n : String) (e : Expr) (v : String)
    (st st1 : St) (m : String)
    (h1 : evalBlock fuel fs pre st = .ok st1)
    (h2 : evalExpr e st1.vars = .error m) :
    evalStmt fuel fs (.TryCatch (pre ++ .Assign n e :: rest) cb v) st
      = evalBlock fuel fs cb ⟨dictSet v (.str m) st1.vars, st1.imported_modules, st1.reads⟩
    ∧ ∀ x w, x ≠ v → dictGet x st1.vars = some w
        → dictGet x (dictSet v (.str m) st1.vars) = some w := by
  have htry : evalBlock fuel fs (pre ++ .Assign n e :: rest) st = .err m st1 := by
    rw [evalBlock_append fuel fs pre (.Assign n e :: rest) st, h1]
    dsimp only []
    rw [evalBlock.eq_def]
    dsimp only []
    rw [evalStmt_Assign_error fuel fs n e st1 m h2]
  constructor
  · rw [evalStmt.eq_def]
    dsimp only []
    rw [htry]
  · intro x w hx hw
    rw [dictGet_dictSet_ne hx, hw]

/-- Witness for `tryCatch_no_rollback`: `x = 1;` succeeds inside the
try-block, then `z = y;` fails on the unbound `y`; the catch runs with
`x` still bound to 1. -/
theorem tryCatch_no_rollback_witness :
    evalStmt 0 (fun _ => none)
      (.TryCatch [.Assign "x" (.Number (.int 1)), .Assign "z" (.Variable "y")] [] "e") initSt
      = evalBlock 0 (fun _ => none) []
          ⟨dictSet "e" (.str "未定义的变量: 'y'。可用的变量: [x]") [("x", .int 1)], [], []⟩
    ∧ dictGet "x" (dictSet "e" (.str "未定义的变量: 'y'。可用的变量: [x]") [("x", .int 1)])
        = some (.int 1) := by
  have h := tryCatch_no_rollback 0 (fun _ => none)
    [.Assign "x" (.Number (.int 1))] [] [] "z" (.Variable "y") "e"
    initSt ⟨[("x", .int 1)], [], []⟩ "未定义的变量: 'y'。可用的变量: [x]"
    ?hpre ?hfail
  case hpre =>
    rw [evalBlock.eq_def]
    dsimp only []
    rw [evalStmt.eq_def]
    dsimp only []
    rw [show evalExpr (.Number (.int 1)) initSt.vars = .ok (.int 1) from rfl]
    dsimp only []
    rw [evalBlock.eq_def]
    rfl
  case hfail => rfl
  exact ⟨h.1, h.2 "x" (.int 1) (by decide) (by rfl)⟩

/-! ## Token positions (claim C3) -/

/-- The token kinds whose `Token(...)` construction happens AFTER the
scanning helper has moved the cursor (strings, numbers, identifiers
and keywords); all other kinds are built before `advance`. -/
def tokenRecordsScanEnd : TokenType → Bool
  | .STRING => true
  | .NUMBER => true
  | .IDENTIFIER => true
  | .PRINT => true
  | .IF => true
  | .ELSE => true
  | .WHILE => true
  | .IMPORT => true
  | .TRY => true
  | .CATCH => true
  | _ => false

theorem keywordType_scanEnd (s : String) : tokenRecordsScanEnd (keywordType s) = true := by
  unfold keywordType
  split_ifs <;> rfl

/-- C3 (amended): when the current character directly starts a token
(no leading whitespace or comment), the punctuation and operator
tokens (`;()\x7b\x7d+-*/=`, comparisons, assignment) record the 1-based
position of the token's FIRST character, but STRING, NUMBER,
IDENTIFIER and keyword tokens record the lexer position immediately
AFTER the lexeme (for strings, after the closing quote): the source
builds those tokens with `self.line`/`self.column` evaluated after the
scanning helper has already advanced the cursor.  This contradicts the
claim that every token carries the position of the first character of
its lexeme. -/
theorem get_next_token_position (st : LexSt) (c : Char) (rest : List Char)
    (hch : st.chars = c :: rest) (hsp : pyIsSpace c = false) (hcm : c ≠ '#')
    (t : Token) (st1 : LexSt) (h : get_next_token st = .ok (t, st1)) :
    (tokenRecordsScanEnd t.type = true → t.line = st1.line ∧ t.column = st1.column)
    ∧ (tokenRecordsScanEnd t.type = false → t.line = st.line ∧ t.column = st.column) := by
  rw [get_next_token] at h
  rw [hch] at h
  simp only [List.length_cons] at h
  rw [get_next_token_go] at h
  rw [hch] at h
  dsimp only [] at h
  rw [if_neg (by simp [hsp]), if_neg hcm] at h
  by_cases h1 : c = '"'
  · rw [if_pos h1] at h
    rcases hres : string_scan rest st.line (st.column + 1) "" with ⟨l, co, msg⟩ | ⟨s, chars1, line1, col1⟩ <;>
      rw [hres] at h
    · exact Except.noConfusion h
    · simp only [Except.ok.injEq, Prod.mk.injEq] at h
      obtain ⟨ht, hst⟩ := h
      subst ht
      subst hst
      exact ⟨fun _ => ⟨rfl, rfl⟩, fun habs => absurd habs (by simp [tokenRecordsScanEnd])⟩
  · rw [if_neg h1] at h
    by_cases h2 : pyIsDigit c
    · rw [if_pos h2] at h
      rcases hres : number_scan (c :: rest) st.column with ⟨n, chars1, col1⟩
      rw [hres] at h
      simp only [Except.ok.injEq, Prod.mk.injEq] at h
      obtain ⟨ht, hst⟩ := h
      subst ht
      subst hst
      exact ⟨fun _ => ⟨rfl, rfl⟩, fun habs => absurd habs (by simp [tokenRecordsScanEnd])⟩
    · rw [if_neg (by simp [h2])] at h
      by_cases h3 : (pyIsAlpha c || decide (c = '_')) = true
      · rw [if_pos h3] at h
        rcases hres : identifier_scan (c :: rest) st.column "" with ⟨name, chars1, col1⟩
        rw [hres] at h
        simp only [Except.ok.injEq, Prod.mk.injEq] at h
        obtain ⟨ht, hst⟩ := h
        subst ht
        subst hst
        refine ⟨fun _ => ⟨rfl, rfl⟩, fun habs => ?_⟩
        rw [keywordType_scanEnd name] at habs
        exact absurd habs (by decide)
      · rw [if_neg h3] at h
        by_cases h4 : c = ';'
        · rw [if_pos h4] at h
          simp only [Except.ok.injEq, Prod.mk.injEq] at h
          obtain ⟨ht, hst⟩ := h
          subst ht
          exact ⟨fun habs => absurd habs (by simp [tokenRecordsScanEnd]), fun _ => ⟨rfl, rfl⟩⟩
        · rw [if_neg h4] at h
          by_cases h5 : c = '('
          · rw [if_pos h5] at h
            simp only [Except.ok.injEq, Prod.mk.injEq] at h
            obtain ⟨ht, hst⟩ := h
            subst ht
            exact ⟨fun habs => absurd habs (by simp [tokenRecordsScanEnd]), fun _ => ⟨rfl, rfl⟩⟩
          · rw [if_neg h5] at h
            by_cases h6 : c = ')'
            · rw [if_pos h6] at h
              simp only [Except.ok.injEq, Prod.mk.injEq] at h
              obtain ⟨ht, hst⟩ := h
              subst ht
              exact ⟨fun habs => absurd habs (by simp [tokenRecordsScanEnd]), fun _ => ⟨rfl, rfl⟩⟩
            · rw [if_neg h6] at h
              by_cases h7 : c = '\x7b'
              · rw [if_pos h7] at h
                simp only [Except.ok.injEq, Prod.mk.injEq] at h
                obtain ⟨ht, hst⟩ := h
                subst ht
                exact ⟨fun habs => absurd habs (by simp [tokenRecordsScanEnd]), fun _ => ⟨rfl, rfl⟩⟩
              · rw [if_neg h7] at h
                by_cases h8 : c = '\x7d'
                · rw [if_pos h8] at h
                  simp only [Except.ok.injEq, Prod.mk.injEq] at h
                  obtain ⟨ht, hst⟩ := h
                  subst ht
                  exact ⟨fun habs => absurd habs (by simp [tokenRecordsScanEnd]), fun _ => ⟨rfl, rfl⟩⟩
                · rw [if_neg h8] at h
                  by_cases h9 : c = '+'
                  · rw [if_pos h9] at h
                    simp only [Except.ok.injEq, Prod.mk.injEq] at h
                    obtain ⟨ht, hst⟩ := h
                    subst ht
                    exact ⟨fun habs => absurd habs (by simp [tokenRecordsScanEnd]), fun _ => ⟨rfl, rfl⟩⟩
                  · rw [if_neg h9] at h
                    by_cases h10 : c = '-'
                    · rw [if_pos h10] at h
                      simp only [Except.ok.injEq, Prod.mk.injEq] at h
                      obtain ⟨ht, hst⟩ := h
                      subst ht
                      exact ⟨fun habs => absurd habs (by simp [tokenRecordsScanEnd]), fun _ => ⟨rfl, rfl⟩⟩
                    · rw [if_neg h10] at h
                      by_cases h11 : c = '*'
                      · rw [if_pos h11] at h
                        simp only [Except.ok.injEq, Prod.mk.injEq] at h
                        obtain ⟨ht, hst⟩ := h
                        subst ht
                        exact ⟨fun habs => absurd habs (by simp [tokenRecordsScanEnd]), fun _ => ⟨rfl, rfl⟩⟩
                      · rw [if_neg h11] at h
                        by_cases h12 : c = '/'
                        · rw [if_pos h12] at h
                          simp only [Except.ok.injEq, Prod.mk.injEq] at h
                          obtain ⟨ht, hst⟩ := h
                          subst ht
                          exact ⟨fun habs => absurd habs (by simp [tokenRecordsScanEnd]), fun _ => ⟨rfl, rfl⟩⟩
                        · rw [if_neg h12] at h
                          by_cases h13 : c = '='
                          · rw [if_pos h13] at h
                            split at h <;>
                              (simp only [Except.ok.injEq, Prod.mk.injEq] at h
                               obtain ⟨ht, hst⟩ := h
                               subst ht
                               exact ⟨fun habs => absurd habs (by simp [tokenRecordsScanEnd]),
                                 fun _ => ⟨rfl, rfl⟩⟩)
                          · rw [if_neg h13] at h
                            by_cases h14 : c = '<' || c = '>' || c = '!'
                            · rw [if_pos h14] at h
                              split at h <;>
                                (simp only [Except.ok.injEq, Prod.mk.injEq] at h
                                 obtain ⟨ht, hst⟩ := h
                                 subst ht
                                 exact ⟨fun habs => absurd habs (by simp [tokenRecordsScanEnd]),
                                   fun _ => ⟨rfl, rfl⟩⟩)
                            · rw [if_neg h14] at h
                              exact Except.noConfusion h

/-- Witness for `get_next_token_position`: a `;` token records the
position of its own character. -/
theorem get_next_token_position_witness :
    (⟨.SEMICOLON, .s ";", 1, 1⟩ : Token).line = (⟨[';'], "f", 1, 1⟩ : LexSt).line
    ∧ (⟨.SEMICOLON, .s ";", 1, 1⟩ : Token).column = (⟨[';'], "f", 1, 1⟩ : LexSt).column := by
  exact (get_next_token_position ⟨[';'], "f", 1, 1⟩ ';' [] rfl (by decide) (by decide)
    ⟨.SEMICOLON, .s ";", 1, 1⟩ ⟨[], "f", 1, 2⟩ (by rfl)).2 (by decide)

/-- C3 (counterexample to the claim as stated): lexing the two-letter
identifier `ab` starting at line 1, column 1 yields a token whose
recorded column is 3 — the position after the lexeme — not the column
1 of the lexeme's first character. -/
theorem get_next_token_position_cex :
    get_next_token ⟨['a', 'b'], "f", 1, 1⟩
      = .ok (⟨.IDENTIFIER, .s "ab", 1, 3⟩, ⟨[], "f", 1, 3⟩)
    ∧ (⟨.IDENTIFIER, .s "ab", 1, 3⟩ : Token).column ≠ 1 := by
  exact ⟨by rfl, by decide⟩

/-! ## Import deduplication (claim C4) -/

/-- C4 (amended): the at-most-once guarantee holds per interpreter
INSTANCE: an `Import` whose module name is already in that instance's
`imported_modules` set does nothing at all (no resolution, no read, no
execution — the state is returned unchanged), and any `Import` that
completes normally leaves its name in the set, so two `Import`s of the
same name evaluated by the same interpreter instance read the file at
most once.  The set is NOT shared with the fresh interpreter that runs
an imported module's body, so a module imported transitively inside
another module can be read and executed again at top level (see the
counterexample). -/
theorem visit_Import_dedup (fuel : Nat) (fs : String → Option String)
    (name : String) (st : St) :
    (name ∈ st.imported_modules → evalStmt fuel fs (.Import name) st = .ok st)
    ∧ (∀ st1, evalStmt fuel fs (.Import name) st = .ok st1 → name ∈ st1.imported_modules) := by
  constructor
  · intro hin
    rw [evalStmt.eq_def]
    dsimp only []
    rw [if_pos hin]
  · intro st1 h
    rw [evalStmt.eq_def] at h
    dsimp only [] at h
    split at h
    · rename_i hin
      simp only [Res.ok.injEq] at h
      exact h ▸ hin
    · split at h
      · simp at h
      · simp at h
      · split at h
        · simp at h
        · unfold import_finish at h
          split at h
          · simp only [Res.ok.injEq] at h
            rw [← h]
            simp
          · simp at h
          · simp at h

/-- Witness for `visit_Import_dedup`: importing `m` when `m` is
already in the imported set leaves the state untouched (no read is
logged). -/
theorem visit_Import_dedup_witness :
    evalStmt 0 (fun _ => none) (.Import "m") ⟨[], ["m"], []⟩ = .ok ⟨[], ["m"], []⟩ :=
  (visit_Import_dedup 0 (fun _ => none) "m" ⟨[], ["m"], []⟩).1 (by decide)

/-- A first-time `Import` whose file resolves and parses runs the
module body in a fresh interpreter instance sharing only the variables
and the read log (`visit_Import`, source lines 617-646). -/
theorem visit_Import_run (fuel1 : Nat) (fs : String → Option String)
    (name : String) (st : St) (code : String) (prog : List Stmt)
    (hnin : name ∉ st.imported_modules)
    (hf : fs name = some code)
    (hp : runFrontend code name = .ok prog) :
    evalStmt (fuel1 + 1) fs (.Import name) st
      = import_finish name (st.imported_modules ++ [name])
          (evalBlock fuel1 fs prog ⟨st.vars, [], st.reads ++ [name]⟩) := by
  rw [evalStmt.eq_def]
  dsimp only []
  rw [if_neg hnin, hf]
  dsimp only []
  rw [hp]

/-- The filesystem of the C4 counterexample: module `a` is a file
whose whole text is `import "b";` (in the source language's script),
and module `b` is an empty file. -/
def cexFs : String → Option String :=
  fun n => if n = "a" then some "导入\"b\";" else if n = "b" then some "" else none

/-- C4 (counterexample to the claim as stated): running
`import "a"; import "b";` where `a.mylang` itself imports `b` reads
`b`'s file TWICE — once transitively inside `a` (recorded by the
nested interpreter instance, whose imported-module set is fresh and
then discarded) and once at top level — so the same module name
triggers file I/O twice in one program. -/
theorem import_transitive_reread_cex :
    evalBlock 2 cexFs [.Import "a", .Import "b"] initSt
      = .ok ⟨[], ["a", "b"], ["a", "b", "b"]⟩
    ∧ (["a", "b", "b"].count "b") = 2 := by
  refine ⟨?_, by decide⟩
  have hA : runFrontend "导入\"b\";" "a" = .ok [.Import "b"] := by rfl
  have hB : runFrontend "" "b" = .ok [] := by rfl
  have hImpB1 : evalStmt 1 cexFs (.Import "b") ⟨[], [], ["a"]⟩ = .ok ⟨[], ["b"], ["a", "b"]⟩ := by
    have h := visit_Import_run 0 cexFs "b" ⟨[], [], ["a"]⟩ "" [] (by decide) (by rfl) hB
    rw [show (1 : Nat) = 0 + 1 from rfl, h]
    show import_finish "b" ["b"] (evalBlock 0 cexFs [] ⟨[], [], ["a", "b"]⟩) = _
    rw [evalBlock]
    rfl
  have hImpA : evalStmt 2 cexFs (.Import "a") initSt = .ok ⟨[], ["a"], ["a", "b"]⟩ := by
    have h := visit_Import_run 1 cexFs "a" initSt "导入\"b\";" [.Import "b"]
      (by decide) (by rfl) hA
    rw [show (2 : Nat) = 1 + 1 from rfl, h]
    show import_finish "a" ["a"] (evalBlock 1 cexFs [.Import "b"] ⟨[], [], ["a"]⟩) = _
    rw [evalBlock.eq_def]
    dsimp only []
    rw [hImpB1]
    dsimp only []
    rw [evalBlock]
    rfl
  have hImpB2 : evalStmt 2 cexFs (.Import "b") ⟨[], ["a"], ["a", "b"]⟩
      = .ok ⟨[], ["a", "b"], ["a", "b", "b"]⟩ := by
    have h := visit_Import_run 1 cexFs "b" ⟨[], ["a"], ["a", "b"]⟩ "" [] (by decide) (by rfl) hB
    rw [show (2 : Nat) = 1 + 1 from rfl, h]
    show import_finish "b" ["a", "b"] (evalBlock 1 cexFs [] ⟨[], [], ["a", "b", "b"]⟩) = _
    rw [evalBlock]
    rfl
  rw [evalBlock.eq_def]
  dsimp only []
  rw [hImpA]
  dsimp only []
  rw [evalBlock.eq_def]
  dsimp only []
  rw [hImpB2]
  dsimp only []
  rw [evalBlock]

/-! ## Bool-free environments (claim C9) -/

/-- The grammar invariant behind C9: an expression produced by the
`expr` production contains no `Comparison` node (`comparison` is only
reachable from `if`/`while` condition positions). -/
def noCmp : Expr → Bool
  | .Number _ => true
  | .StringLit _ => true
  | .Variable _ => true
  | .BinOp l _ r => noCmp l && noCmp r
  | .Comparison _ _ _ => false

mutual

/-- Statement well-formedness as guaranteed by `Parser.statement`:
every `Assign` right-hand side (and hence every value that can be
stored) comes from the `expr` production, and all nested blocks are
well-formed.  Condition positions are unconstrained — their values are
tested but never stored. -/
def wfS : Stmt → Bool
  | .Print _ => true
  | .Assign _ e => noCmp e
  | .If _ tb fb => wfB tb && wfB (fb.getD [])
  | .While _ b => wfB b
  | .Import _ => true
  | .TryCatch tb cb _ => wfB tb && wfB cb
termination_by s => sizeOf s
decreasing_by
  all_goals simp_wf
  all_goals first
    | (rcases fb with _ | fbl <;> simp [Option.getD] <;> omega)
    | omega

/-- Block well-formedness: every statement is well-formed. -/
def wfB : List Stmt → Bool
  | [] => true
  | s :: rest => wfS s && wfB rest
termination_by l => sizeOf l

end

/-- A bool-free environment: no name is bound to a Python boolean. -/
def BFv (vars : List (String × Value)) : Prop :=
  ∀ n v, (n, v) ∈ vars → v.isBool = false

/-- Bool-freedom of the state carried by an evaluation result. -/
def ResBF : Res → Prop
  | .ok st => BFv st.vars
  | .err _ st => BFv st.vars
  | .oom => True

theorem numValue_not_bool (p : PyNum) : (numValue p).isBool = false := by
  cases p <;> rfl

/-- `visit_BinOp` only ever produces numbers and strings, never a
boolean. -/
theorem applyBinOp_not_bool (op : String) (l r v : Value)
    (h : applyBinOp op l r = .ok v) : v.isBool = false := by
  unfold applyBinOp at h
  split_ifs at h <;>
    first
      | exact Except.noConfusion h
      | (simp only [Except.ok.injEq] at h
         subst h
         first | rfl | exact numValue_not_bool _)

/-- Evaluating a `Comparison`-free expression in a bool-free
environment never yields a boolean. -/
theorem evalExpr_noCmp_not_bool (e : Expr) :
    ∀ vars, noCmp e = true → BFv vars →
      ∀ v, evalExpr e vars = .ok v → v.isBool = false := by
  induction e with
  | Number nv =>
    intro vars hw hv v h
    simp only [evalExpr, Except.ok.injEq] at h
    subst h
    exact numValue_not_bool nv
  | StringLit s =>
    intro vars hw hv v h
    simp only [evalExpr, Except.ok.injEq] at h
    subst h
    rfl
  | Variable name =>
    intro vars hw hv v h
    simp only [evalExpr] at h
    rcases hg : dictGet name vars with _ | w
    · rw [hg] at h; exact Except.noConfusion h
    · rw [hg] at h
      simp only [Except.ok.injEq] at h
      subst h
      exact hv _ _ (dictGet_mem hg)
  | BinOp a op b iha ihb =>
    intro vars hw hv v h
    simp only [evalExpr] at h
    rcases ha : evalExpr a vars with ma | va
    · rw [ha] at h; exact Except.noConfusion h
    · rw [ha] at h
      rcases hb : evalExpr b vars with mb | vb
      · rw [hb] at h; exact Except.noConfusion h
      · rw [hb] at h
        exact applyBinOp_not_bool op va vb v h
  | Comparison a op b iha ihb =>
    intro vars hw
    exact absurd hw (by simp [noCmp])

/-- Storing a non-boolean value keeps the environment bool-free. -/
theorem BFv_dictSet {vars : List (String × Value)} (h : BFv vars)
    (k : String) (v : Value) (hv : v.isBool = false) : BFv (dictSet k v vars) := by
  intro n w hm
  rcases dictSet_mem hm with ⟨hn, hw⟩ | hm1
  · exact hw ▸ hv
  · exact h _ _ hm1

/-- What the grammar guarantees (`Parser`, source lines 311-478):
the `factor`/`term`/`expr` productions never build a `Comparison`
node, statements are well-formed, and so are whole parses.  Proved by
induction on the parser fuel. -/
theorem parser_noCmp (n : Nat) :
    (∀ ps e ps1, factor n ps = .ok (e, ps1) → noCmp e = true)
    ∧ (∀ ps e ps1, term n ps = .ok (e, ps1) → noCmp e = true)
    ∧ (∀ node ps e ps1, noCmp node = true → term_loop n node ps = .ok (e, ps1) → noCmp e = true)
    ∧ (∀ ps e ps1, expr n ps = .ok (e, ps1) → noCmp e = true)
    ∧ (∀ node ps e ps1, noCmp node = true → expr_loop n node ps = .ok (e, ps1) → noCmp e = true)
    ∧ (∀ ps s ps1, statement n ps = .ok (s, ps1) → wfS s = true)
    ∧ (∀ ps l ps1, block n ps = .ok (l, ps1) → wfB l = true)
    ∧ (∀ ps l ps1, parse n ps = .ok (l, ps1) → wfB l = true) := by
  induction n with
  | zero =>
    refine ⟨fun ps e ps1 h => ?_, fun ps e ps1 h => ?_, fun node ps e ps1 hn h => ?_,
      fun ps e ps1 h => ?_, fun node ps e ps1 hn h => ?_, fun ps s ps1 h => ?_,
      fun ps l ps1 h => ?_, fun ps l ps1 h => ?_⟩ <;>
      first
        | (rw [factor] at h; exact Except.noConfusion h)
        | (rw [term] at h; exact Except.noConfusion h)
        | (rw [term_loop] at h; exact Except.noConfusion h)
        | (rw [expr] at h; exact Except.noConfusion h)
        | (rw [expr_loop] at h; exact Except.noConfusion h)
        | (rw [statement] at h; exact Except.noConfusion h)
        | (rw [block] at h; exact Except.noConfusion h)
        | (rw [parse] at h; exact Except.noConfusion h)
  | succ n ih =>
    obtain ⟨ihF, ihT, ihTL, ihE, ihEL, ihS, ihB, ihP⟩ := ih
    refine ⟨fun ps e ps1 h => ?_, fun ps e ps1 h => ?_, fun node ps e ps1 hn h => ?_,
      fun ps e ps1 h => ?_, fun node ps e ps1 hn h => ?_, fun ps s ps1 h => ?_,
      fun ps l ps1 h => ?_, fun ps l ps1 h => ?_⟩
    · -- factor
      rw [factor] at h
      split_ifs at h
      all_goals repeat first | exact Except.noConfusion h | split at h
      all_goals simp only [Except.ok.injEq, Prod.mk.injEq] at h
      all_goals obtain ⟨he, -⟩ := h
      all_goals subst he
      all_goals first | rfl | exact ihE _ _ _ (by assumption)
    · -- term
      rw [term] at h
      repeat first | exact Except.noConfusion h | split at h
      exact ihTL _ _ _ _ (ihF _ _ _ (by assumption)) h
    · -- term_loop
      rw [term_loop] at h
      dsimp only [] at h
      split_ifs at h
      · repeat first | exact Except.noConfusion h | split at h
        refine ihTL _ _ _ _ ?_ h
        have hr : noCmp _ = true := ihF _ _ _ (by assumption)
        show (noCmp node && _) = true
        rw [hn, hr]
        rfl
      · simp only [Except.ok.injEq, Prod.mk.injEq] at h
        obtain ⟨he, -⟩ := h
        subst he
        exact hn
    · -- expr
      rw [expr] at h
      repeat first | exact Except.noConfusion h | split at h
      exact ihEL _ _ _ _ (ihT _ _ _ (by assumption)) h
    · -- expr_loop
      rw [expr_loop] at h
      dsimp only [] at h
      split_ifs at h
      · repeat first | exact Except.noConfusion h | split at h
        refine ihEL _ _ _ _ ?_ h
        have hr : noCmp _ = true := ihT _ _ _ (by assumption)
        show (noCmp node && _) = true
        rw [hn, hr]
        rfl
      · simp only [Except.ok.injEq, Prod.mk.injEq] at h
        obtain ⟨he, -⟩ := h
        subst he
        exact hn
    · -- statement
      rw [statement] at h
      dsimp only [] at h
      split_ifs at h
      all_goals repeat first | exact Except.noConfusion h | split at h
      all_goals simp only [Except.ok.injEq, Prod.mk.injEq] at h
      all_goals obtain ⟨hs, -⟩ := h
      all_goals subst hs
      · -- Print
        simp [wfS]
      · -- Assign
        simp only [wfS]
        exact ihE _ _ _ (by assumption)
      · -- If with else
        simp only [wfS, Option.getD_some, Bool.and_eq_true]
        exact ⟨ihB _ _ _ (by assumption), ihB _ _ _ (by assumption)⟩
      · -- If without else
        simp only [wfS, Option.getD_none, Bool.and_eq_true]
        exact ⟨ihB _ _ _ (by assumption), by simp [wfB]⟩
      · -- While
        simp only [wfS]
        exact ihB _ _ _ (by assumption)
      · -- Import
        simp [wfS]
      · -- TryCatch
        simp only [wfS, Bool.and_eq_true]
        exact ⟨ihB _ _ _ (by assumption), ihB _ _ _ (by assumption)⟩
    · -- block
      rw [block] at h
      split_ifs at h
      · repeat first | exact Except.noConfusion h | split at h
        simp only [Except.ok.injEq, Prod.mk.injEq] at h
        obtain ⟨hl, -⟩ := h
        subst hl
        simp only [wfB, Bool.and_eq_true]
        exact ⟨ihS _ _ _ (by assumption), ihB _ _ _ (by assumption)⟩
      · simp only [Except.ok.injEq, Prod.mk.injEq] at h
        obtain ⟨hl, -⟩ := h
        subst hl
        simp [wfB]
    · -- parse
      rw [parse] at h
      split_ifs at h
      · repeat first | exact Except.noConfusion h | split at h
        simp only [Except.ok.injEq, Prod.mk.injEq] at h
        obtain ⟨hl, -⟩ := h
        subst hl
        simp only [wfB, Bool.and_eq_true]
        exact ⟨ihS _ _ _ (by assumption), ihP _ _ _ (by assumption)⟩
      · simp only [Except.ok.injEq, Prod.mk.injEq] at h
        obtain ⟨hl, -⟩ := h
        subst hl
        simp [wfB]

/-- Every program the front end accepts is well-formed. -/
theorem runFrontend_wf (source fname : String) (prog : List Stmt)
    (h : runFrontend source fname = .ok prog) : wfB prog = true := by
  unfold runFrontend at h
  split at h
  · exact Except.noConfusion h
  · split at h
    · exact Except.noConfusion h
    · rename_i hp
      simp only [Except.ok.injEq] at h
      subst h
      exact (parser_noCmp _).2.2.2.2.2.2.2 _ _ _ hp

/-- `visit_If` never stores its condition value, so branch selection
preserves any environment invariant its branches do. -/
theorem visit_If_result_BF (cond : Except String Value) (t f : Res) (st : St)
    (hst : BFv st.vars) (ht : ResBF t) (hf : ResBF f) :
    ResBF (visit_If_result cond t f st) := by
  unfold visit_If_result
  split
  · exact hst
  · split
    · exact hst
    · exact ht
    · exact hf

/-- Restoring the importer's module set does not touch the
environment, so bool-freedom survives `import_finish`. -/
theorem import_finish_BF (name : String) (imported : List String) (r : Res)
    (h : ResBF r) : ResBF (import_finish name imported r) := by
  cases r with
  | ok st3 => exact h
  | err m st3 => exact h
  | oom => exact trivial

mutual

/-- Statement evaluation preserves bool-freedom of the environment:
assigned values come from `Comparison`-free expressions, the catch
binder stores a string, and everything else only copies the
environment. -/
theorem presStmt (fuel : Nat) (fs : String → Option String) (s : Stmt) (st : St)
    (hw : wfS s = true) (hst : BFv st.vars) : ResBF (evalStmt fuel fs s st) := by
  match s with
  | .Print e =>
    rw [evalStmt]
    rcases he : evalExpr e st.vars with m | v <;> exact hst
  | .Assign var e =>
    rw [evalStmt]
    rcases he : evalExpr e st.vars with m | v
    · exact hst
    · exact BFv_dictSet hst var v
        (evalExpr_noCmp_not_bool e st.vars (by simpa [wfS] using hw) hst v he)
  | .If c tb fb =>
    rw [evalStmt]
    have hw1 := hw
    simp only [wfS, Bool.and_eq_true] at hw1
    exact visit_If_result_BF _ _ _ _ hst
      (presBlock fuel fs tb st hw1.1 hst)
      (presBlock fuel fs (fb.getD []) st hw1.2 hst)
  | .While c b =>
    rw [evalStmt]
    exact presWhile fuel fs c b 0 st (by simpa [wfS] using hw) hst
  | .Import name =>
    rw [evalStmt.eq_def]
    dsimp only []
    by_cases hin : name ∈ st.imported_modules
    · rw [if_pos hin]; exact hst
    · rw [if_neg hin]
      cases fuel with
      | zero =>
        split
        · exact hst
        · exact trivial
        · omega
      | succ fuel1 =>
        split
        · exact hst
        · omega
        · split
          · exact hst
          · apply import_finish_BF
            exact presBlock _ fs _ ⟨st.vars, [], st.reads ++ [name]⟩
              (runFrontend_wf _ name _ (by assumption)) hst
  | .TryCatch tb cb ev =>
    rw [evalStmt]
    have hw1 := hw
    simp only [wfS, Bool.and_eq_true] at hw1
    have h1 := presBlock fuel fs tb st hw1.1 hst
    rcases hb : evalBlock fuel fs tb st with st1 | ⟨m, st1⟩ | _
    · rw [hb] at h1; exact h1
    · rw [hb] at h1
      exact presBlock fuel fs cb _ hw1.2 (BFv_dictSet h1 ev (.str m) rfl)
    · exact trivial
termination_by (fuel, sizeOf s, 0)
decreasing_by
  all_goals simp_wf
  all_goals first
    | (apply Prod.Lex.right; apply Prod.Lex.left
       have hc : 0 < sizeOf c := by cases c <;> simp_arith
       omega)
    | (apply Prod.Lex.right; apply Prod.Lex.left
       have hc : 0 < sizeOf c := by cases c <;> simp_arith
       rcases fb with _ | fbl <;> simp [Option.getD] <;> omega)
    | (apply Prod.Lex.left; omega)
    | decreasing_tactic

/-- Block evaluation preserves bool-freedom. -/
theorem presBlock (fuel : Nat) (fs : String → Option String) (l : List Stmt) (st : St)
    (hw : wfB l = true) (hst : BFv st.vars) : ResBF (evalBlock fuel fs l st) := by
  match l with
  | [] => rw [evalBlock]; exact hst
  | s :: rest =>
    rw [evalBlock]
    have hw1 := hw
    simp only [wfB, Bool.and_eq_true] at hw1
    have h1 := presStmt fuel fs s st hw1.1 hst
    rcases hs : evalStmt fuel fs s st with st1 | ⟨m, st1⟩ | _
    · rw [hs] at h1
      exact presBlock fuel fs rest st1 hw1.2 h1
    · rw [hs] at h1; exact h1
    · exact trivial
termination_by (fuel, sizeOf l, 0)

/-- The `visit_While` loop preserves bool-freedom (the condition value
is tested by truthiness, never stored). -/
theorem presWhile (fuel : Nat) (fs : String → Option String) (c : Expr) (b : List Stmt)
    (iterations : Nat) (st : St) (hw : wfB b = true) (hst : BFv st.vars) :
    ResBF (evalWhile fuel fs c b iterations st) := by
  rw [evalWhile]
  rcases he : evalExpr c st.vars with m | v
  · exact hst
  · dsimp only []
    by_cases ht : v.truthy
    · rw [if_pos ht]
      have h1 := presBlock fuel fs b st hw hst
      rcases hb : evalBlock fuel fs b st with st1 | ⟨m, st1⟩ | _
      · rw [hb] at h1
        by_cases hlim : max_iterations < iterations + 1
        · simp only [hlim, if_true]
          exact h1
        · simp only [hlim, if_false]
          exact presWhile fuel fs c b (iterations + 1) st1 hw h1
      · rw [hb] at h1; exact h1
      · exact trivial
    · rw [if_neg ht]; exact hst
termination_by (fuel, sizeOf b + 1, max_iterations + 1 - iterations)
decreasing_by
  all_goals simp_wf
  all_goals first
    | (apply Prod.Lex.right; apply Prod.Lex.right; omega)
    | decreasing_tactic

end

/-- C9: the environment never contains a boolean value.  For any
program accepted by the front end, after any run of the interpreter
from the initial state — whether it completes normally or stops at a
`RuntimeError` — every value bound to a name in `variables` is an
integer, a fraction, or text: `Assign` right-hand sides are `expr`
productions (which cannot contain `Comparison` nodes, the only
boolean producers), and the catch variable is always bound to a
string. -/
theorem env_never_bool (source fname : String) (prog : List Stmt)
    (fuel : Nat) (fs : String → Option String) (st1 : St)
    (hp : runFrontend source fname = .ok prog)
    (hr : interpret fuel fs prog initSt = .ok st1
          ∨ ∃ m, interpret fuel fs prog initSt = .err m st1) :
    ∀ n v, (n, v) ∈ st1.vars →
      (∃ i, v = Value.int i) ∨ (∃ q, v = Value.float q) ∨ (∃ s, v = Value.str s) := by
  have hwf := runFrontend_wf source fname prog hp
  have hbf : BFv initSt.vars := by intro n v hm; simp [initSt] at hm
  have h1 := presBlock fuel fs prog initSt hwf hbf
  have h2 : BFv st1.vars := by
    rcases hr with h | ⟨m, h⟩
    · rw [interpret] at h
      rw [h] at h1
      exact h1
    · rw [interpret] at h
      rw [h] at h1
      exact h1
  intro n v hm
  have h3 := h2 n v hm
  cases v with
  | int i => exact Or.inl ⟨i, rfl⟩
  | float q => exact Or.inr (Or.inl ⟨q, rfl⟩)
  | str s => exact Or.inr (Or.inr ⟨s, rfl⟩)
  | bool b => exact absurd h3 (by simp [Value.isBool])

/-- Witness for `env_never_bool`: the program `x=1;` parses, runs, and
binds only the integer `1`. -/
theorem env_never_bool_witness :
    (∃ i, Value.int 1 = Value.int i) ∨ (∃ q, Value.int 1 = Value.float q)
    ∨ (∃ s, Value.int 1 = Value.str s) := by
  have hp : runFrontend "x=1;" "f" = .ok [.Assign "x" (.Number (.int 1))] := by rfl
  have hA : evalStmt 0 (fun _ => none) (.Assign "x" (.Number (.int 1))) initSt
      = .ok ⟨[("x", Value.int 1)], [], []⟩ := by
    rw [evalStmt]
    rfl
  have h2 : interpret 0 (fun _ => none) [.Assign "x" (.Number (.int 1))] initSt
      = .ok ⟨[("x", Value.int 1)], [], []⟩ := by
    rw [interpret, evalBlock]
    rw [hA]
    dsimp only []
    rw [evalBlock]
  exact env_never_bool "x=1;" "f" _ 0 (fun _ => none) _ hp (Or.inl h2) "x" (Value.int 1)
    (by simp)

end MyLang
